import Mathlib

/-! es_restart: rolling restart of an Elasticsearch cluster.

A shallow embedding of `index.js`.  The script is callback-driven and strictly
serial: at any moment exactly one request, timer or remote command is pending.
A run is therefore modelled as a function that threads a trace of events; the
answer the outside world gives to the operation issued as event number `t` is
read from a `World` at index `t`, and is recorded in the trace next to the
operation.

Conventions of the embedding
* A callback invocation `callback(error, data)` is a `Callback` value that keeps
  the truthiness of `error` and the value of `data`.
* An exception nobody catches (a `TypeError` raised inside a callback) is
  `none` in an `Option (Callback _)` result.
* Values read out of JSON bodies are scalars (`JSVal`); a parsed body is
  `undefined`, `null` or a flat object.  Property names that live on
  `Object.prototype` are outside the model.
* The packages the script requires are modelled from their sources: `async`
  (0.9: `series`, `eachSeries`, `retry`) and `backo` (`Backoff`, `duration`).
-/

namespace EsRestart

/-! ## Configuration (the CONFIG block of index.js) -/

/-- The elasticsearch binary. -/
def esBinary : String := "elasticsearch/bin/elasticsearch"

/-- The elasticsearch config file. -/
def esConfig : String := "/etc/elasticsearch/elasticsearch.yml"

/-- The elasticsearch PID file. -/
def esPID : String := "elasticsearch.pid"

/-- The url used to make the initial connection. -/
def clusterUrl : String := "http://sssvcsav01.umasscs.net:9200"

/-- The user to log in to nodes with. -/
def esUser : String := "logstash"

/-! ## Values, replies, events -/

/-- A JavaScript scalar as it comes out of a JSON body, or `undefined`. -/
inductive JSVal where
  | undefined
  | null
  | bool (b : Bool)
  | num (n : Int)
  | str (s : String)
  deriving DecidableEq, Repr

/-- The `body` argument handed over by `request` with `json:true`: nothing
(`undefined`), JSON `null`, or a parsed object with its own properties. -/
inductive Body where
  | undefined
  | null
  | obj (fields : List (String × JSVal))
  deriving DecidableEq, Repr

/-- Truthiness of a body (`state && ...`). -/
def Body.truthy : Body → Bool
  | .obj _ => true
  | _ => false

/-- Property read `b[key]`: `none` is the `TypeError` raised on `undefined` and
`null`; a property an object does not have reads as `undefined`. -/
def Body.getProp : Body → String → Option JSVal
  | .undefined, _ => none
  | .null, _ => none
  | .obj fields, key => some ((fields.lookup key).getD JSVal.undefined)

/-- What `request` hands to its callback: whether `error` is truthy, and the
response (`statusCode`, parsed `body`), which the script reads only when
`error` is falsy. -/
structure HttpReply where
  error : Bool
  statusCode : Nat
  body : Body
  deriving DecidableEq, Repr

/-- One entry of `body.nodes` in a `/_nodes` response. -/
structure NodeEntry where
  name : JSVal
  http_address : JSVal
  host : JSVal
  deriving DecidableEq, Repr

/-- The callback arguments of the `/_nodes` request; `nodes` lists the values
of `body.nodes` in the order `for ... in` enumerates them. -/
structure NodesReply where
  error : Bool
  statusCode : Nat
  nodes : List NodeEntry
  deriving DecidableEq, Repr

/-- The operations the script issues, plus the entry into `waitForState`. -/
inductive Op where
  | waitForState (nodeURL : String) (retryTimes : Nat) (key : String) (value : JSVal)
  | get (uri : String)
  | setTimeout (ms : Nat)
  | put (uri : String) (allocationEnable : String)
  | post (uri : String)
  | ssh (hostname : JSVal) (user : String) (port : Nat) (cmd : String)
  deriving DecidableEq, Repr

/-- What came back for an operation. -/
inductive Reply where
  | none
  | http (r : HttpReply)
  | nodes (r : NodesReply)
  | exit (exitCode : Int)
  deriving DecidableEq, Repr

/-- An operation together with what came back for it. -/
structure Event where
  op : Op
  reply : Reply
  deriving DecidableEq, Repr

/-- The events of a run so far, oldest first. -/
abbrev Trace := List Event

/-- The outside world: what is answered to the operation issued as event
number `t` of the run, according to the kind of that operation. -/
structure World where
  http : Nat → HttpReply
  nodes : Nat → NodesReply
  exitCode : Nat → Int

/-- The arguments of a node-style callback: truthiness of `error`, and `data`. -/
structure Callback (α : Type) where
  error : Bool
  data : α
  deriving DecidableEq, Repr

/-! ## backo -/

/-- The state of a `Backoff` object of package backo (factor 2 and no jitter are
its defaults). -/
structure Backoff where
  ms : Nat
  max : Nat
  factor : Nat := 2
  attempts : Nat := 0
  deriving DecidableEq, Repr

/-- The method `Backoff.prototype.duration`:
`Math.min(this.ms * Math.pow(this.factor, this.attempts++), this.max)`. -/
def Backoff.duration (b : Backoff) : Nat × Backoff :=
  (min (b.ms * b.factor ^ b.attempts) b.max, { b with attempts := b.attempts + 1 })

/-! ## async -/

/-- The attempts of `async.retry`, `more` of them still allowed after the next
one: a task that calls back without error ends the loop, and so does the final
attempt whatever it reports. -/
def asyncRetryLoop {σ α : Type} (task : σ → Option (Callback α) × σ) :
    Nat → σ → Option (Callback α) × σ
  | 0, s => task s
  | more + 1, s =>
    match task s with
    | (none, s') => (none, s')
    | (some cb, s') => if cb.error then asyncRetryLoop task more s' else (some cb, s')

/-- The number of attempts `async.retry` makes for a numeric first argument:
`times = parseInt(times, 10) || DEFAULT_TIMES`, with `DEFAULT_TIMES = 5`. -/
def asyncRetryTimes (times : Nat) : Nat := if times = 0 then 5 else times

/-- The call `async.retry(times, task, callback)`. -/
def asyncRetry {σ α : Type} (times : Nat) (task : σ → Option (Callback α) × σ) (s : σ) :
    Option (Callback α) × σ :=
  asyncRetryLoop task (asyncRetryTimes times - 1) s

/-! ## The script's functions -/

/-- The function `clusterState`: one GET of `/_cluster/health`. -/
def clusterState (w : World) (nodeURL : String) (tr : Trace) : Callback Body × Trace :=
  let url := nodeURL ++ "/_cluster/health"
  let r := w.http tr.length
  let tr1 := tr ++ [⟨Op.get url, Reply.http r⟩]
  if r.error || r.statusCode != 200 then
    (⟨r.error, Body.undefined⟩, tr1)
  else
    (⟨false, r.body⟩, tr1)

/-- The task that `waitForState` hands to `async.retry`: one attempt. -/
def waitAttempt (w : World) (nodeURL key : String) (value : JSVal) :
    Backoff × Trace → Option (Callback Body) × (Backoff × Trace)
  | (backoff, tr) =>
    let (cb, tr1) := clusterState w nodeURL tr
    let state := cb.data
    if cb.error then
      let (ms, backoff1) := backoff.duration
      (some ⟨true, Body.undefined⟩, (backoff1, tr1 ++ [⟨Op.setTimeout ms, Reply.none⟩]))
    else if state.truthy && state.getProp key == some value then
      (some ⟨false, state⟩, (backoff, tr1))
    else
      match state.getProp key with
      | none => (none, (backoff, tr1))
      | some _ =>
        let (ms, backoff1) := backoff.duration
        (some ⟨true, Body.undefined⟩, (backoff1, tr1 ++ [⟨Op.setTimeout ms, Reply.none⟩]))

/-- The function `waitForState`. -/
def waitForState (w : World) (nodeURL : String) (retryTimes : Nat) (key : String)
    (value : JSVal) (tr : Trace) : Option (Callback Body) × Trace :=
  let backoff : Backoff := { ms := 1000, max := 60000 }
  let tr0 := tr ++ [⟨Op.waitForState nodeURL retryTimes key value, Reply.none⟩]
  let r := asyncRetry retryTimes (waitAttempt w nodeURL key value) (backoff, tr0)
  (r.1, r.2.2)

/-- The method call `address.split('/')` on the characters of a string. -/
def splitSlash : List Char → List (List Char)
  | [] => [[]]
  | c :: cs =>
    if c = '/' then [] :: splitSlash cs
    else
      match splitSlash cs with
      | [] => [[c]]
      | seg :: rest => (c :: seg) :: rest

/-- The expression `address.split('/')[1].replace(']','')`; `none` is the
`TypeError` raised when `address` is no string or `split` yields one piece.
`replace` with a string pattern removes the first occurrence only. -/
def nodeAddress (address : JSVal) : Option String :=
  match address with
  | JSVal.str s =>
    match (splitSlash s.data)[1]? with
    | none => none
    | some seg => some (String.mk (seg.erase ']'))
  | _ => none

/-- A discovered node (`nodeObject`). -/
structure Node where
  name : JSVal
  http : String
  host : JSVal
  deriving DecidableEq, Repr

/-- The `for (var node in body.nodes)` loop of `clusterNodeURLs`, with the
array `nodes` built so far; `none` when an iteration throws. -/
def nodesLoop : List NodeEntry → List Node → Option (List Node)
  | [], nodes => some nodes
  | entry :: rest, nodes =>
    match nodeAddress entry.http_address with
    | none => none
    | some address =>
      nodesLoop rest (nodes ++ [{ name := entry.name, http := "http://" ++ address,
                                  host := entry.host }])

/-- The function `clusterNodeURLs`: one GET of `/_nodes`.  The data of the
callback is `none` when the callback gets no second argument. -/
def clusterNodeURLs (w : World) (clusterUrl : String) (tr : Trace) :
    Option (Callback (Option (List Node))) × Trace :=
  let url := clusterUrl ++ "/_nodes"
  let r := w.nodes tr.length
  let tr1 := tr ++ [⟨Op.get url, Reply.nodes r⟩]
  if r.error || r.statusCode != 200 then
    (some ⟨r.error, none⟩, tr1)
  else
    match nodesLoop r.nodes [] with
    | none => (none, tr1)
    | some nodes => (some ⟨false, some nodes⟩, tr1)

/-- The function `shutdownNode`: one POST to the local-shutdown path. -/
def shutdownNode (w : World) (nodeURL : String) (tr : Trace) : Callback Body × Trace :=
  let url := nodeURL ++ "/_cluster/nodes/_local/_shutdown"
  let r := w.http tr.length
  let tr1 := tr ++ [⟨Op.post url, Reply.http r⟩]
  if r.error || r.statusCode != 200 then
    (⟨r.error, Body.undefined⟩, tr1)
  else
    (⟨false, r.body⟩, tr1)

/-- The function `shardAllocation`: one PUT of the transient allocation
setting; `none` when reading `body.acknowledged` throws. -/
def shardAllocation (w : World) (nodeURL : String) (state : String) (tr : Trace) :
    Option (Callback Body) × Trace :=
  let bodyPut := if state = "enable" then "all" else "none"
  let url := nodeURL ++ "/_cluster/settings"
  let r := w.http tr.length
  let tr1 := tr ++ [⟨Op.put url bodyPut, Reply.http r⟩]
  if r.error || r.statusCode != 200 then
    (some ⟨r.error, Body.undefined⟩, tr1)
  else
    match r.body.getProp "acknowledged" with
    | none => (none, tr1)
    | some acknowledged =>
      if acknowledged = JSVal.bool false then
        (some ⟨r.error, Body.undefined⟩, tr1)
      else
        (some ⟨false, r.body⟩, tr1)

/-- The command line `esStartCmd.join(' ')`. -/
def esStartCmd (sleepSeconds : Nat) : String :=
  " ".intercalate
    ["source .profile &&",
     "sleep " ++ toString sleepSeconds ++ " &&",
     esBinary,
     "--config " ++ esConfig,
     "-p " ++ esPID,
     "-d"]

/-- The function `startElasticSearch`: one remote command.  On a non-zero exit
code the callback gets `results` as its error. -/
def startElasticSearch (w : World) (host : JSVal) (sleepSeconds : Nat) (tr : Trace) :
    Callback (Option Int) × Trace :=
  let cmd := esStartCmd sleepSeconds
  let exitCode := w.exitCode tr.length
  let tr1 := tr ++ [⟨Op.ssh host esUser 22 cmd, Reply.exit exitCode⟩]
  if exitCode ≠ 0 then
    (⟨true, none⟩, tr1)
  else
    (⟨false, some exitCode⟩, tr1)

/-- How a task of `async.series` ends: `none` for an uncaught exception,
otherwise the truthiness of the error it calls back with. -/
abbrev Task := Trace → Option Bool × Trace

/-- The error truthiness of a callback that may not happen. -/
def taskOfOption {α : Type} (r : Option (Callback α) × Trace) : Option Bool × Trace :=
  (r.1.map (fun cb => cb.error), r.2)

/-- The error truthiness of a callback. -/
def taskOf {α : Type} (r : Callback α × Trace) : Option Bool × Trace :=
  (some r.1.error, r.2)

/-- The call `async.series(tasks, callback)`: tasks run one after the other,
the first truthy error ends the series. -/
def asyncSeries : List Task → Task
  | [], tr => (some false, tr)
  | task :: rest, tr =>
    match task tr with
    | (none, tr1) => (none, tr1)
    | (some error, tr1) => if error then (some true, tr1) else asyncSeries rest tr1

/-- How the process ends: normally after the success message, by
`process.exit(1)`, or on an uncaught exception. -/
inductive Exit where
  | success
  | failure
  | uncaught
  deriving DecidableEq, Repr

/-- The function `eachNode`; `nodeCount` is the global it reads.  The result is
`none` when the iterator callback is invoked (always without error) and
`some e` when the process ends inside. -/
def eachNode (w : World) (nodeCount : JSVal) (node : Node) (tr : Trace) :
    Option Exit × Trace :=
  match asyncSeries
    [ fun t => taskOfOption (waitForState w node.http 10 "status" (JSVal.str "green") t),
      fun t => taskOfOption (shardAllocation w node.http "disable" t),
      fun t => taskOf (shutdownNode w node.http t),
      fun t => taskOf (startElasticSearch w node.host 10 t),
      fun t => taskOfOption (waitForState w node.http 10 "number_of_nodes" nodeCount t),
      fun t => taskOfOption (shardAllocation w node.http "enable" t),
      fun t => taskOfOption (waitForState w node.http 60 "status" (JSVal.str "green") t) ] tr with
  | (none, tr1) => (some Exit.uncaught, tr1)
  | (some error, tr1) => if error then (some Exit.failure, tr1) else (none, tr1)

/-- The call `async.eachSeries(nodes, eachNode, callback)` on an array. -/
def asyncEachSeries (iterator : Node → Trace → Option Exit × Trace) :
    List Node → Trace → Option Exit × Trace
  | [], tr => (none, tr)
  | node :: rest, tr =>
    match iterator node tr with
    | (some e, tr1) => (some e, tr1)
    | (none, tr1) => asyncEachSeries iterator rest tr1

/-- The top-level `async.series` of the script.  The globals `nodes` and
`nodeCount` are each assigned once, by the second and the third task.
`async.eachSeries` (async 0.9) reads `arr.length`, so a `nodes` left
`undefined` is an uncaught `TypeError`. -/
def main (w : World) : Exit × Trace :=
  match waitForState w clusterUrl 3 "status" (JSVal.str "green") [] with
  | (none, tr1) => (Exit.uncaught, tr1)
  | (some cb1, tr1) =>
    if cb1.error then (Exit.failure, tr1)
    else
      match clusterNodeURLs w clusterUrl tr1 with
      | (none, tr2) => (Exit.uncaught, tr2)
      | (some cb2, tr2) =>
        let nodes := cb2.data
        if cb2.error then (Exit.failure, tr2)
        else
          match clusterState w clusterUrl tr2 with
          | (cb3, tr3) =>
            match cb3.data.getProp "number_of_nodes" with
            | none => (Exit.uncaught, tr3)
            | some nodeCount =>
              if cb3.error then (Exit.failure, tr3)
              else
                match nodes with
                | none => (Exit.uncaught, tr3)
                | some ns =>
                  match asyncEachSeries (eachNode w nodeCount) ns tr3 with
                  | (some e, tr4) => (e, tr4)
                  | (none, tr4) => (Exit.success, tr4)

/-! ## Test worlds -/

/-- A health body of a green cluster of `n` nodes. -/
def greenBody (n : Int) : Body :=
  Body.obj [("status", JSVal.str "green"), ("number_of_nodes", JSVal.num n)]

/-- A world in which everything succeeds at once: a 3-node cluster, green. -/
def happyWorld : World where
  http := fun _ => ⟨false, 200, Body.obj [("status", JSVal.str "green"),
    ("number_of_nodes", JSVal.num 3), ("acknowledged", JSVal.bool true)]⟩
  nodes := fun _ => ⟨false, 200,
    [⟨JSVal.str "A", JSVal.str "inet[/10.0.0.1:9200]", JSVal.str "hostA"⟩,
     ⟨JSVal.str "B", JSVal.str "inet[/10.0.0.2:9200]", JSVal.str "hostB"⟩,
     ⟨JSVal.str "C", JSVal.str "inet[/10.0.0.3:9200]", JSVal.str "hostC"⟩]⟩
  exitCode := fun _ => 0

/-! ## Reading a trace -/

/-- The health GET event of `clusterState` on `nodeURL` with reply `r`. -/
def healthEvent (nodeURL : String) (r : HttpReply) : Event :=
  ⟨Op.get (nodeURL ++ "/_cluster/health"), Reply.http r⟩

/-- The timer event of a backoff delay. -/
def timeoutEvent (ms : Nat) : Event := ⟨Op.setTimeout ms, Reply.none⟩

/-- The event is a GET. -/
def Event.isFetch (e : Event) : Bool :=
  match e.op with
  | Op.get _ => true
  | _ => false

/-- The delay of a timer event. -/
def Event.delay (e : Event) : Option Nat :=
  match e.op with
  | Op.setTimeout ms => some ms
  | _ => none

/-- A health reply carries a snapshot whose `key` is strictly equal to `value`:
the fetch succeeded (no error, status 200) and `body[key] === value`. -/
def HttpReply.Matches (key : String) (value : JSVal) (r : HttpReply) : Prop :=
  r.error = false ∧ r.statusCode = 200 ∧ r.body.getProp key = some value

/-- The event is a reply whose snapshot matches. -/
def Event.Matches (key : String) (value : JSVal) (e : Event) : Prop :=
  ∃ r, e.reply = Reply.http r ∧ r.Matches key value

/-- A health reply on which the attempt is retried: a transport error, or a
snapshot that is an object whose `key` differs from `value`. -/
def HttpReply.Retried (key : String) (value : JSVal) (r : HttpReply) : Prop :=
  r.error = true ∨
    (r.statusCode = 200 ∧ ∃ v, r.body.getProp key = some v ∧ v ≠ value)

/-- A health reply on which the attempt throws: no transport error, and a
status other than 200 or a body that is `undefined` or `null`. -/
def HttpReply.Throws (key : String) (r : HttpReply) : Prop :=
  r.error = false ∧ (r.statusCode ≠ 200 ∨ r.body.getProp key = none)

/-- The runs of the retry loop of `waitForState`, as a relation: the events
issued and the callback, from `more` spare attempts and backoff state `b`. -/
inductive PollRun (nodeURL key : String) (value : JSVal) :
    Nat → Backoff → List Event → Option (Callback Body) → Prop where
  | matched (more : Nat) (b : Backoff) (r : HttpReply) (h : r.Matches key value) :
      PollRun nodeURL key value more b [healthEvent nodeURL r] (some ⟨false, r.body⟩)
  | thrown (more : Nat) (b : Backoff) (r : HttpReply) (h : r.Throws key) :
      PollRun nodeURL key value more b [healthEvent nodeURL r] none
  | exhausted (b : Backoff) (r : HttpReply) (h : r.Retried key value) :
      PollRun nodeURL key value 0 b
        [healthEvent nodeURL r, timeoutEvent b.duration.1] (some ⟨true, Body.undefined⟩)
  | again (more : Nat) (b : Backoff) (r : HttpReply) (h : r.Retried key value)
      (ext : List Event) (res : Option (Callback Body))
      (rest : PollRun nodeURL key value more b.duration.2 ext res) :
      PollRun nodeURL key value (more + 1) b
        (healthEvent nodeURL r :: timeoutEvent b.duration.1 :: ext) res

/-- The events of consecutive retried attempts on `nodeURL`, the first of them
being failed attempt number `i` of its call: each health fetch is followed by
the wait of `min(1000 * 2^i, 60000)` ms. -/
def retryEvents (nodeURL : String) : Nat → List HttpReply → List Event
  | _, [] => []
  | i, r :: rs =>
    healthEvent nodeURL r :: timeoutEvent (min (1000 * 2 ^ i) 60000) ::
      retryEvents nodeURL (i + 1) rs

/-- The entry event of a `waitForState` call. -/
def waitEvent (nodeURL : String) (retryTimes : Nat) (key : String) (value : JSVal) : Event :=
  ⟨Op.waitForState nodeURL retryTimes key value, Reply.none⟩

/-- A world in which no health fetch ever gets through. -/
def downWorld : World where
  http := fun _ => ⟨true, 0, Body.undefined⟩
  nodes := fun _ => ⟨true, 0, []⟩
  exitCode := fun _ => 1

/-- A world whose health endpoint answers every request with status 503 and
no transport error. -/
def unavailableWorld : World where
  http := fun _ => ⟨false, 503, Body.undefined⟩
  nodes := fun _ => ⟨false, 503, []⟩
  exitCode := fun _ => 0

/-- A world whose settings endpoint answers 200 with a body that has no
`acknowledged` field. -/
def silentWorld : World where
  http := fun _ => ⟨false, 200, Body.obj []⟩
  nodes := fun _ => ⟨false, 200, []⟩
  exitCode := fun _ => 0

/-- A node list whose only entry has an address without a slash. -/
def plainAddressWorld : World where
  http := fun _ => ⟨false, 200, Body.obj []⟩
  nodes := fun _ => ⟨false, 200, [⟨JSVal.str "A", JSVal.str "10.0.0.1:9200", JSVal.str "hostA"⟩]⟩
  exitCode := fun _ => 0

/-- A node list whose only entry has a bracketed address with a slash in the
part before the bracket. -/
def slashPrefixWorld : World where
  http := fun _ => ⟨false, 200, Body.obj []⟩
  nodes := fun _ => ⟨false, 200,
    [⟨JSVal.str "A", JSVal.str ("a/b" ++ "[" ++ "x" ++ "/" ++ "10.0.0.1:9200" ++ "]"),
      JSVal.str "hostA"⟩]⟩
  exitCode := fun _ => 0

/-! ## Runs of the orchestrator, as relations on event lists -/

/-- The PUT event of `shardAllocation` on `nodeURL`. -/
def putEvent (nodeURL mode : String) (r : HttpReply) : Event :=
  ⟨Op.put (nodeURL ++ "/_cluster/settings") mode, Reply.http r⟩

/-- The POST event of `shutdownNode` on `nodeURL`. -/
def postEvent (nodeURL : String) (r : HttpReply) : Event :=
  ⟨Op.post (nodeURL ++ "/_cluster/nodes/_local/_shutdown"), Reply.http r⟩

/-- The remote start command on `host`, after `sleepSeconds` seconds. -/
def sshEvent (host : JSVal) (sleepSeconds : Nat) (exitCode : Int) : Event :=
  ⟨Op.ssh host esUser 22 (esStartCmd sleepSeconds), Reply.exit exitCode⟩

/-- The GET event of `clusterNodeURLs`. -/
def nodesEvent (url : String) (r : NodesReply) : Event :=
  ⟨Op.get (url ++ "/_nodes"), Reply.nodes r⟩

/-- The events and the callback of one `waitForState` call. -/
def WaitRun (nodeURL : String) (retryTimes : Nat) (key : String) (value : JSVal)
    (ev : List Event) (res : Option (Callback Body)) : Prop :=
  ∃ ext, ev = waitEvent nodeURL retryTimes key value :: ext ∧
    PollRun nodeURL key value (asyncRetryTimes retryTimes - 1) { ms := 1000, max := 60000 }
      ext res

/-- The poll reported success. -/
def Succeeded (res : Option (Callback Body)) : Prop :=
  ∃ cb, res = some cb ∧ cb.error = false

/-- How the process ends when a step of `eachNode` does not succeed. -/
def exitOfStep : Option Bool → Exit
  | none => Exit.uncaught
  | some _ => Exit.failure

/-- The events of the first `k` steps of `eachNode`, all of them successful. -/
inductive NodeSteps (nodeCount : JSVal) (node : Node) : Nat → List Event → Prop where
  | start : NodeSteps nodeCount node 0 []
  | green (ev p : List Event) (res : Option (Callback Body))
      (h : NodeSteps nodeCount node 0 ev)
      (hp : WaitRun node.http 10 "status" (JSVal.str "green") p res) (hs : Succeeded res) :
      NodeSteps nodeCount node 1 (ev ++ p)
  | disable (ev : List Event) (r : HttpReply) (h : NodeSteps nodeCount node 1 ev) :
      NodeSteps nodeCount node 2 (ev ++ [putEvent node.http "none" r])
  | shutdown (ev : List Event) (r : HttpReply) (h : NodeSteps nodeCount node 2 ev)
      (hr : r.error = false) :
      NodeSteps nodeCount node 3 (ev ++ [postEvent node.http r])
  | started (ev : List Event) (h : NodeSteps nodeCount node 3 ev) :
      NodeSteps nodeCount node 4 (ev ++ [sshEvent node.host 10 0])
  | rejoined (ev p : List Event) (res : Option (Callback Body))
      (h : NodeSteps nodeCount node 4 ev)
      (hp : WaitRun node.http 10 "number_of_nodes" nodeCount p res) (hs : Succeeded res) :
      NodeSteps nodeCount node 5 (ev ++ p)
  | enable (ev : List Event) (r : HttpReply) (h : NodeSteps nodeCount node 5 ev) :
      NodeSteps nodeCount node 6 (ev ++ [putEvent node.http "all" r])
  | settled (ev p : List Event) (res : Option (Callback Body))
      (h : NodeSteps nodeCount node 6 ev)
      (hp : WaitRun node.http 60 "status" (JSVal.str "green") p res) (hs : Succeeded res) :
      NodeSteps nodeCount node 7 (ev ++ p)

/-- The events of step number `k` of `eachNode` when it does not succeed, and
how the process ends. -/
inductive NodeStop (nodeCount : JSVal) (node : Node) : Nat → List Event → Exit → Prop where
  | green (p : List Event) (res : Option (Callback Body))
      (hp : WaitRun node.http 10 "status" (JSVal.str "green") p res) (hs : ¬ Succeeded res) :
      NodeStop nodeCount node 0 p (exitOfStep (res.map (fun cb => cb.error)))
  | disable (r : HttpReply) (e : Exit) (he : e ≠ Exit.success) :
      NodeStop nodeCount node 1 [putEvent node.http "none" r] e
  | shutdown (r : HttpReply) (hr : r.error = true) :
      NodeStop nodeCount node 2 [postEvent node.http r] Exit.failure
  | start (exitCode : Int) (hc : exitCode ≠ 0) :
      NodeStop nodeCount node 3 [sshEvent node.host 10 exitCode] Exit.failure
  | rejoin (p : List Event) (res : Option (Callback Body))
      (hp : WaitRun node.http 10 "number_of_nodes" nodeCount p res) (hs : ¬ Succeeded res) :
      NodeStop nodeCount node 4 p (exitOfStep (res.map (fun cb => cb.error)))
  | enable (r : HttpReply) (e : Exit) (he : e ≠ Exit.success) :
      NodeStop nodeCount node 5 [putEvent node.http "all" r] e
  | lastPoll (p : List Event) (res : Option (Callback Body))
      (hp : WaitRun node.http 60 "status" (JSVal.str "green") p res) (hs : ¬ Succeeded res) :
      NodeStop nodeCount node 6 p (exitOfStep (res.map (fun cb => cb.error)))

/-- The events of one `eachNode` call and its result. -/
inductive NodeRun (nodeCount : JSVal) (node : Node) : List Event → Option Exit → Prop where
  | done (ev : List Event) (h : NodeSteps nodeCount node 7 ev) :
      NodeRun nodeCount node ev none
  | stop (k : Nat) (pre last : List Event) (e : Exit) (h : NodeSteps nodeCount node k pre)
      (hl : NodeStop nodeCount node k last e) :
      NodeRun nodeCount node (pre ++ last) (some e)

/-- The events of the node loop and its result. -/
inductive LoopRun (nodeCount : JSVal) : List Node → List Event → Option Exit → Prop where
  | nil : LoopRun nodeCount [] [] none
  | stop (node : Node) (rest : List Node) (ev : List Event) (e : Exit)
      (h : NodeRun nodeCount node ev (some e)) :
      LoopRun nodeCount (node :: rest) ev (some e)
  | next (node : Node) (rest : List Node) (ev ext : List Event) (res : Option Exit)
      (h : NodeRun nodeCount node ev none) (hrest : LoopRun nodeCount rest ext res) :
      LoopRun nodeCount (node :: rest) (ev ++ ext) res

/-- What a run of the tasks of `eachNode` amounts to, from the trace `base` at
which the node was entered: the new events, all seven steps done or the steps
done and the one that stopped the series. -/
def SeriesOut (nodeCount : JSVal) (node : Node) (base : Trace) (r : Option Bool × Trace) :
    Prop :=
  ∃ ev, r.2 = base ++ ev ∧
    ((r.1 = some false ∧ NodeSteps nodeCount node 7 ev) ∨
     (r.1 ≠ some false ∧ ∃ k pre last, ev = pre ++ last ∧ NodeSteps nodeCount node k pre ∧
        NodeStop nodeCount node k last (exitOfStep r.1)))

/-- The tasks of `eachNode`, in order. -/
def nodeTasks (w : World) (nodeCount : JSVal) (node : Node) : List Task :=
  [ fun t => taskOfOption (waitForState w node.http 10 "status" (JSVal.str "green") t),
    fun t => taskOfOption (shardAllocation w node.http "disable" t),
    fun t => taskOf (shutdownNode w node.http t),
    fun t => taskOf (startElasticSearch w node.host 10 t),
    fun t => taskOfOption (waitForState w node.http 10 "number_of_nodes" nodeCount t),
    fun t => taskOfOption (shardAllocation w node.http "enable" t),
    fun t => taskOfOption (waitForState w node.http 60 "status" (JSVal.str "green") t) ]

/-- The events of a whole run of the script and how the process ends: it stops
in the green-cluster check, at discovery, at the baseline fetch, or it reaches
the node loop with the discovered nodes `ns` and the baseline `nodeCount`. -/
inductive MainRun : List Event → Exit → Prop where
  | precheck (p : List Event) (res : Option (Callback Body))
      (hp : WaitRun clusterUrl 3 "status" (JSVal.str "green") p res) (hs : ¬ Succeeded res) :
      MainRun p (exitOfStep (res.map (fun cb => cb.error)))
  | discovery (p : List Event) (res : Option (Callback Body)) (rN : NodesReply) (e : Exit)
      (hp : WaitRun clusterUrl 3 "status" (JSVal.str "green") p res) (hs : Succeeded res)
      (he : e ≠ Exit.success) :
      MainRun (p ++ [nodesEvent clusterUrl rN]) e
  | baseline (p : List Event) (res : Option (Callback Body)) (rN : NodesReply)
      (rb : HttpReply) (e : Exit)
      (hp : WaitRun clusterUrl 3 "status" (JSVal.str "green") p res) (hs : Succeeded res)
      (he : e ≠ Exit.success) :
      MainRun (p ++ [nodesEvent clusterUrl rN, healthEvent clusterUrl rb]) e
  | loop (p : List Event) (res : Option (Callback Body)) (rN : NodesReply) (rb : HttpReply)
      (ns : List Node) (nodeCount : JSVal) (ev : List Event) (lres : Option Exit)
      (hp : WaitRun clusterUrl 3 "status" (JSVal.str "green") p res) (hs : Succeeded res)
      (hN : rN.error = false ∧ rN.statusCode = 200 ∧ nodesLoop rN.nodes [] = some ns)
      (hb : rb.error = false ∧ rb.statusCode = 200 ∧
        rb.body.getProp "number_of_nodes" = some nodeCount)
      (hl : LoopRun nodeCount ns ev lres) :
      MainRun (p ++ nodesEvent clusterUrl rN :: healthEvent clusterUrl rb :: ev)
        (lres.getD Exit.success)

/-- The event is a remote start command that came back with a non-zero exit
status. -/
def Event.StartFailed (e : Event) : Prop :=
  ∃ host user port cmd exitCode,
    e = ⟨Op.ssh host user port cmd, Reply.exit exitCode⟩ ∧ exitCode ≠ 0

/-- Every failed start in `ev` is the last event of `ev`, comes right after the
disable and the shutdown call of one node, and entails `failed`. -/
def StartSafe (ev : List Event) (failed : Prop) : Prop :=
  ∀ pre e post, ev = pre ++ e :: post → e.StartFailed →
    post = [] ∧ failed ∧
      ∃ pre' nodeURL r1 r2, pre = pre' ++ [putEvent nodeURL "none" r1, postEvent nodeURL r2]

/-- A world in which the first remote start command exits with status 1: the
cluster is green with 3 nodes, every request succeeds. -/
def startFailsWorld : World where
  http := happyWorld.http
  nodes := happyWorld.nodes
  exitCode := fun _ => 1

/-- Every event of `ev` that satisfies `Q` is justified by the events before
it, as `R` says. -/
def Guarded (Q : Event → Prop) (R : List Event → Event → Prop) (ev : List Event) : Prop :=
  ∀ pre e post, ev = pre ++ e :: post → Q e → R pre e

/-- The event is a shutdown call. -/
def Event.IsShutdown (e : Event) : Prop := ∃ uri, e.op = Op.post uri

/-- The event is a disable-allocation call. -/
def Event.isDisable (e : Event) : Bool :=
  match e.op with
  | Op.put _ mode => mode == "none"
  | _ => false

/-- The event is an enable-allocation call. -/
def Event.isEnable (e : Event) : Bool :=
  match e.op with
  | Op.put _ mode => mode == "all"
  | _ => false

/-- The events `pre` end with a disable call to the node that `e` shuts down. -/
def DisabledBefore (pre : List Event) (e : Event) : Prop :=
  ∃ pre' nodeURL r1 r2, pre = pre' ++ [putEvent nodeURL "none" r1] ∧ e = postEvent nodeURL r2

/-- The events `pre` end with a rejoin poll of the node whose allocation `e`
enables: the entry of a `waitForState` on `number_of_nodes`, its attempts, and a
last health fetch on which `number_of_nodes` matches the expected value. -/
def RejoinedBefore (pre : List Event) (e : Event) : Prop :=
  ∃ pre' nodeURL nodeCount ext r r',
    pre = pre' ++ waitEvent nodeURL 10 "number_of_nodes" nodeCount :: ext ++
      [healthEvent nodeURL r] ∧
    r.Matches "number_of_nodes" nodeCount ∧
    (∀ x ∈ ext, (∃ r0, x = healthEvent nodeURL r0) ∨ ∃ ms, x = timeoutEvent ms) ∧
    e = putEvent nodeURL "all" r'

/-- With `d0` disable calls outstanding before `ev`: at every point of `ev` the
disable calls issued exceed the enable calls by 0 or 1, and `d1` are outstanding
after `ev`. -/
def Balanced (d0 : Nat) (ev : List Event) (d1 : Nat) : Prop :=
  (∀ p, p <+: ev →
    p.countP Event.isEnable ≤ d0 + p.countP Event.isDisable ∧
    d0 + p.countP Event.isDisable ≤ p.countP Event.isEnable + 1) ∧
  d0 + ev.countP Event.isDisable = ev.countP Event.isEnable + d1

/-- The disable calls outstanding after `k` successful steps of a node. -/
def outstanding (k : Nat) : Nat := if 2 ≤ k ∧ k ≤ 5 then 1 else 0

/-- The target and the mode of an allocation call. -/
def Event.putOf (e : Event) : Option (String × String) :=
  match e.op with
  | Op.put uri mode => some (uri, mode)
  | _ => none

/-- The allocation calls of a fully restarted node. -/
def nodePuts (node : Node) : List (String × String) :=
  [(node.http ++ "/_cluster/settings", "none"), (node.http ++ "/_cluster/settings", "all")]

/-- A world in which the shutdown call of the first node (event number 7) is
answered with status 500 and no transport error; everything else succeeds. -/
def shutdownRefusedWorld : World where
  http := fun t => if t = 7 then ⟨false, 500, Body.undefined⟩ else happyWorld.http t
  nodes := happyWorld.nodes
  exitCode := fun _ => 0

/-- The number of allocation calls after `k` successful steps of a node. -/
def putsDone (k : Nat) : Nat := if k < 2 then 0 else if k < 6 then 1 else 2

/-- The event is one attempt of a poll or a plain GET: a fetch or a timer. -/
def Event.isAttempt (e : Event) : Bool :=
  match e.op with
  | Op.get _ => true
  | Op.setTimeout _ => true
  | _ => false

/-- The operations of `ev` at the level of steps: fetches and timers left out. -/
def stepOps (ev : List Event) : List Op :=
  (ev.filter (fun e => !e.isAttempt)).map Event.op

/-- The seven steps of the restart of one node. -/
def nodeOps (nodeCount : JSVal) (node : Node) : List Op :=
  [ Op.waitForState node.http 10 "status" (JSVal.str "green"),
    Op.put (node.http ++ "/_cluster/settings") "none",
    Op.post (node.http ++ "/_cluster/nodes/_local/_shutdown"),
    Op.ssh node.host esUser 22 (esStartCmd 10),
    Op.waitForState node.http 10 "number_of_nodes" nodeCount,
    Op.put (node.http ++ "/_cluster/settings") "all",
    Op.waitForState node.http 60 "status" (JSVal.str "green") ]

/-- The event is the entry of a poll on `number_of_nodes` that expects `v`. -/
def Event.RejoinPoll (v : JSVal) (e : Event) : Prop :=
  ∃ nodeURL n, e.op = Op.waitForState nodeURL n "number_of_nodes" v

/-! ## The polling loop -/

theorem reply_trichotomy (key : String) (value : JSVal) (r : HttpReply) :
    r.Matches key value ∨ r.Retried key value ∨ r.Throws key := by
  unfold HttpReply.Matches HttpReply.Retried HttpReply.Throws
  cases he : r.error
  · by_cases hs : r.statusCode = 200
    · cases hg : r.body.getProp key with
      | none => simp [hs]
      | some v =>
        by_cases hv : v = value
        · simp [hs, hv]
        · simp [hs, hv]
    · simp [hs]
  · simp

theorem waitAttempt_matched (w : World) (nodeURL key : String) (value : JSVal)
    (b : Backoff) (tr : Trace) (h : (w.http tr.length).Matches key value) :
    waitAttempt w nodeURL key value (b, tr) =
      (some ⟨false, (w.http tr.length).body⟩,
        (b, tr ++ [healthEvent nodeURL (w.http tr.length)])) := by
  obtain ⟨he, hs, hg⟩ := h
  have ht : (w.http tr.length).body.truthy = true := by
    cases hb : (w.http tr.length).body <;> simp [hb, Body.getProp] at hg
    rfl
  simp [waitAttempt, clusterState, he, hs, hg, ht, healthEvent]

theorem waitAttempt_retried (w : World) (nodeURL key : String) (value : JSVal)
    (b : Backoff) (tr : Trace) (h : (w.http tr.length).Retried key value) :
    waitAttempt w nodeURL key value (b, tr) =
      (some ⟨true, Body.undefined⟩,
        (b.duration.2, tr ++ [healthEvent nodeURL (w.http tr.length),
          timeoutEvent b.duration.1])) := by
  rcases h with he | ⟨hs, v, hg, hv⟩
  · simp [waitAttempt, clusterState, he, healthEvent, timeoutEvent]
  · cases he : (w.http tr.length).error
    · have hv2 : ¬ (some v = some value) := by simpa using hv
      simp [waitAttempt, clusterState, he, hs, hg, healthEvent, timeoutEvent, hv]
    · simp [waitAttempt, clusterState, he, healthEvent, timeoutEvent]

theorem waitAttempt_throws (w : World) (nodeURL key : String) (value : JSVal)
    (b : Backoff) (tr : Trace) (h : (w.http tr.length).Throws key) :
    waitAttempt w nodeURL key value (b, tr) =
      (none, (b, tr ++ [healthEvent nodeURL (w.http tr.length)])) := by
  obtain ⟨he, hs | hg⟩ := h
  · simp [waitAttempt, clusterState, he, hs, healthEvent, Body.truthy, Body.getProp]
  · by_cases hs : (w.http tr.length).statusCode = 200
    · simp [waitAttempt, clusterState, he, hs, hg, healthEvent]
    · simp [waitAttempt, clusterState, he, hs, healthEvent, Body.truthy, Body.getProp]

/-- The retry loop refines `PollRun`. -/
theorem asyncRetryLoop_pollRun (w : World) (nodeURL key : String) (value : JSVal) :
    ∀ (more : Nat) (b : Backoff) (tr : Trace),
      ∃ ext, PollRun nodeURL key value more b ext
          (asyncRetryLoop (waitAttempt w nodeURL key value) more (b, tr)).1 ∧
        (asyncRetryLoop (waitAttempt w nodeURL key value) more (b, tr)).2.2 = tr ++ ext := by
  intro more
  induction more with
  | zero =>
    intro b tr
    rcases reply_trichotomy key value (w.http tr.length) with h | h | h
    · exact ⟨_, by
        rw [asyncRetryLoop, waitAttempt_matched w nodeURL key value b tr h]
        exact PollRun.matched 0 b _ h, by
        rw [asyncRetryLoop, waitAttempt_matched w nodeURL key value b tr h]⟩
    · exact ⟨_, by
        rw [asyncRetryLoop, waitAttempt_retried w nodeURL key value b tr h]
        exact PollRun.exhausted b _ h, by
        rw [asyncRetryLoop, waitAttempt_retried w nodeURL key value b tr h]⟩
    · exact ⟨_, by
        rw [asyncRetryLoop, waitAttempt_throws w nodeURL key value b tr h]
        exact PollRun.thrown 0 b _ h, by
        rw [asyncRetryLoop, waitAttempt_throws w nodeURL key value b tr h]⟩
  | succ more ih =>
    intro b tr
    rcases reply_trichotomy key value (w.http tr.length) with h | h | h
    · have e : asyncRetryLoop (waitAttempt w nodeURL key value) (more + 1) (b, tr) =
          (some ⟨false, (w.http tr.length).body⟩,
            (b, tr ++ [healthEvent nodeURL (w.http tr.length)])) := by
        simp [asyncRetryLoop, waitAttempt_matched w nodeURL key value b tr h]
      rw [e]
      exact ⟨_, PollRun.matched _ b _ h, rfl⟩
    · obtain ⟨ext, hrun, htr⟩ := ih b.duration.2
        (tr ++ [healthEvent nodeURL (w.http tr.length), timeoutEvent b.duration.1])
      have e : asyncRetryLoop (waitAttempt w nodeURL key value) (more + 1) (b, tr) =
          asyncRetryLoop (waitAttempt w nodeURL key value) more (b.duration.2,
            tr ++ [healthEvent nodeURL (w.http tr.length), timeoutEvent b.duration.1]) := by
        simp [asyncRetryLoop, waitAttempt_retried w nodeURL key value b tr h]
      rw [e]
      refine ⟨healthEvent nodeURL (w.http tr.length) :: timeoutEvent b.duration.1 :: ext,
        PollRun.again more b _ h ext _ hrun, ?_⟩
      simpa using htr
    · have e : asyncRetryLoop (waitAttempt w nodeURL key value) (more + 1) (b, tr) =
          (none, (b, tr ++ [healthEvent nodeURL (w.http tr.length)])) := by
        simp [asyncRetryLoop, waitAttempt_throws w nodeURL key value b tr h]
      rw [e]
      exact ⟨_, PollRun.thrown _ b _ h, rfl⟩

/-- The function `waitForState` refines `PollRun`, from a fresh backoff. -/
theorem waitForState_pollRun (w : World) (nodeURL : String) (N : Nat) (key : String)
    (value : JSVal) (tr : Trace) :
    ∃ ext, PollRun nodeURL key value (asyncRetryTimes N - 1) { ms := 1000, max := 60000 } ext
        (waitForState w nodeURL N key value tr).1 ∧
      (waitForState w nodeURL N key value tr).2 = tr ++ waitEvent nodeURL N key value :: ext := by
  obtain ⟨ext, hrun, htr⟩ := asyncRetryLoop_pollRun w nodeURL key value
    (asyncRetryTimes N - 1) { ms := 1000, max := 60000 }
    (tr ++ [⟨Op.waitForState nodeURL N key value, Reply.none⟩])
  refine ⟨ext, ?_, ?_⟩
  · simpa [waitForState, asyncRetry] using hrun
  · simp only [waitForState, asyncRetry]
    rw [htr]
    simp [waitEvent]

theorem healthEvent_isFetch (nodeURL : String) (r : HttpReply) :
    (healthEvent nodeURL r).isFetch = true := rfl

theorem timeoutEvent_isFetch (ms : Nat) : (timeoutEvent ms).isFetch = false := rfl

theorem timeoutEvent_not_matches (key : String) (value : JSVal) (ms : Nat) :
    ¬ (timeoutEvent ms).Matches key value := by
  rintro ⟨r, hr, _⟩
  simp [timeoutEvent] at hr

theorem healthEvent_matches_iff (nodeURL key : String) (value : JSVal) (r : HttpReply) :
    (healthEvent nodeURL r).Matches key value ↔ r.Matches key value := by
  constructor
  · rintro ⟨r', hr, hm⟩
    simp only [healthEvent, Reply.http.injEq] at hr
    exact hr ▸ hm
  · intro h
    exact ⟨r, rfl, h⟩

theorem retried_not_matches (key : String) (value : JSVal) (r : HttpReply)
    (h : r.Retried key value) : ¬ r.Matches key value := by
  rintro ⟨he, _, hg⟩
  rcases h with h | ⟨_, v, hv, hne⟩
  · simp [he] at h
  · rw [hg] at hv
    exact hne (Option.some.inj hv).symm

theorem throws_not_matches (key : String) (value : JSVal) (r : HttpReply)
    (h : r.Throws key) : ¬ r.Matches key value := by
  rintro ⟨_, hs, hg⟩
  rcases h with ⟨_, h | h⟩
  · exact h hs
  · simp [hg] at h

/-- A poll run makes at most `more + 1` fetches. -/
theorem PollRun.fetches_le {nodeURL key : String} {value : JSVal} {more : Nat} {b : Backoff}
    {ext : List Event} {res : Option (Callback Body)}
    (h : PollRun nodeURL key value more b ext res) :
    (ext.filter Event.isFetch).length ≤ more + 1 := by
  induction h with
  | matched more b r h => simp [healthEvent_isFetch]
  | thrown more b r h => simp [healthEvent_isFetch]
  | exhausted b r h => simp [healthEvent_isFetch, timeoutEvent_isFetch]
  | again more b r h ext res rest ih =>
    simp only [List.filter_cons, healthEvent_isFetch, timeoutEvent_isFetch, if_true,
      List.length_cons]
    simpa using ih

/-- A poll run that reports success ends with the first matching fetch. -/
theorem PollRun.success {nodeURL key : String} {value : JSVal} {more : Nat} {b : Backoff}
    {ext : List Event} {res : Option (Callback Body)}
    (h : PollRun nodeURL key value more b ext res) :
    ∀ cb, res = some cb → cb.error = false →
      ∃ pre r, ext = pre ++ [healthEvent nodeURL r] ∧ r.Matches key value ∧
        cb.data = r.body ∧ (∀ e ∈ pre, ¬ e.Matches key value) ∧
        (∀ e ∈ pre, e.isFetch = true ∨ e.delay ≠ none) := by
  induction h with
  | matched more b r h =>
    intro cb hcb _
    refine ⟨[], r, rfl, h, ?_, by simp, by simp⟩
    cases hcb
    rfl
  | thrown more b r h => intro cb hcb; cases hcb
  | exhausted b r h =>
    intro cb hcb he
    cases hcb
    simp at he
  | again more b r h ext res rest ih =>
    intro cb hcb he
    obtain ⟨pre, r', hext, hm, hd, hpre, hk⟩ := ih cb hcb he
    refine ⟨healthEvent nodeURL r :: timeoutEvent b.duration.1 :: pre, r', ?_, hm, hd, ?_, ?_⟩
    · simp [hext]
    · intro e hmem
      simp only [List.mem_cons] at hmem
      rcases hmem with rfl | rfl | hmem
      · rw [healthEvent_matches_iff]
        exact retried_not_matches key value r h
      · exact timeoutEvent_not_matches key value _
      · exact hpre e hmem
    · intro e hmem
      simp only [List.mem_cons] at hmem
      rcases hmem with rfl | rfl | hmem
      · exact Or.inl rfl
      · exact Or.inr (by simp [timeoutEvent, Event.delay])
      · exact hk e hmem

/-- A poll run that reports an error used up all its attempts without a match. -/
theorem PollRun.failure {nodeURL key : String} {value : JSVal} {more : Nat} {b : Backoff}
    {ext : List Event} {res : Option (Callback Body)}
    (h : PollRun nodeURL key value more b ext res) :
    ∀ cb, res = some cb → cb.error = true →
      (ext.filter Event.isFetch).length = more + 1 ∧ ∀ e ∈ ext, ¬ e.Matches key value := by
  induction h with
  | matched more b r h =>
    intro cb hcb he
    cases hcb
    simp at he
  | thrown more b r h => intro cb hcb; cases hcb
  | exhausted b r h =>
    intro cb _ _
    refine ⟨by simp [healthEvent_isFetch, timeoutEvent_isFetch], ?_⟩
    intro e hmem
    simp only [List.mem_cons, List.mem_singleton, List.not_mem_nil, or_false] at hmem
    rcases hmem with rfl | rfl
    · rw [healthEvent_matches_iff]
      exact retried_not_matches key value r h
    · exact timeoutEvent_not_matches key value _
  | again more b r h ext res rest ih =>
    intro cb hcb he
    obtain ⟨hlen, hno⟩ := ih cb hcb he
    refine ⟨?_, ?_⟩
    · simp only [List.filter_cons, healthEvent_isFetch, timeoutEvent_isFetch, if_true,
        List.length_cons]
      simpa using hlen
    · intro e hmem
      simp only [List.mem_cons] at hmem
      rcases hmem with rfl | rfl | hmem
      · rw [healthEvent_matches_iff]
        exact retried_not_matches key value r h
      · exact timeoutEvent_not_matches key value _
      · exact hno e hmem

/-- A poll run matches at its last event or nowhere. -/
theorem PollRun.matches_imp {nodeURL key : String} {value : JSVal} {more : Nat} {b : Backoff}
    {ext : List Event} {res : Option (Callback Body)}
    (h : PollRun nodeURL key value more b ext res) :
    (∃ e ∈ ext, e.Matches key value) → ∃ cb, res = some cb ∧ cb.error = false := by
  induction h with
  | matched more b r h => intro _; exact ⟨_, rfl, rfl⟩
  | thrown more b r h =>
    rintro ⟨e, hmem, hm⟩
    simp only [List.mem_singleton] at hmem
    subst hmem
    rw [healthEvent_matches_iff] at hm
    exact absurd hm (throws_not_matches key value r h)
  | exhausted b r h =>
    rintro ⟨e, hmem, hm⟩
    simp only [List.mem_cons, List.mem_singleton, List.not_mem_nil, or_false] at hmem
    rcases hmem with rfl | rfl
    · rw [healthEvent_matches_iff] at hm
      exact absurd hm (retried_not_matches key value r h)
    · exact absurd hm (timeoutEvent_not_matches key value _)
  | again more b r h ext res rest ih =>
    rintro ⟨e, hmem, hm⟩
    simp only [List.mem_cons] at hmem
    rcases hmem with rfl | rfl | hmem
    · rw [healthEvent_matches_iff] at hm
      exact absurd hm (retried_not_matches key value r h)
    · exact absurd hm (timeoutEvent_not_matches key value _)
    · exact ih ⟨e, hmem, hm⟩

theorem retryEvents_delays (nodeURL : String) :
    ∀ (rs : List HttpReply) (i : Nat),
      (retryEvents nodeURL i rs).filterMap Event.delay =
        (List.range rs.length).map (fun j => min (1000 * 2 ^ (i + j)) 60000) := by
  intro rs
  induction rs with
  | nil => intro i; simp [retryEvents]
  | cons r rs ih =>
    intro i
    have h1 : (healthEvent nodeURL r).delay = none := rfl
    have h2 : (timeoutEvent (min (1000 * 2 ^ i) 60000)).delay
        = some (min (1000 * 2 ^ i) 60000) := rfl
    simp only [retryEvents, List.filterMap_cons, h1, h2, List.length_cons, ih (i + 1),
      List.range_succ_eq_map, List.map_cons, List.map_map, Nat.add_zero]
    congr 1
    apply List.map_congr_left
    intro j _
    simp only [Function.comp, Nat.succ_eq_add_one]
    have hij : i + 1 + j = i + (j + 1) := by omega
    rw [hij]

theorem backoff_delay_mono {i j : Nat} (h : i ≤ j) :
    min (1000 * 2 ^ i) 60000 ≤ min (1000 * 2 ^ j) 60000 := by
  have h2 : 2 ^ i ≤ 2 ^ j := Nat.pow_le_pow_right (by decide) h
  have h3 : 1000 * 2 ^ i ≤ 1000 * 2 ^ j := Nat.mul_le_mul_left 1000 h2
  omega

theorem backoff_delay_bounds (i : Nat) :
    1000 ≤ min (1000 * 2 ^ i) 60000 ∧ min (1000 * 2 ^ i) 60000 ≤ 60000 := by
  have h2 : 1 ≤ 2 ^ i := Nat.one_le_two_pow
  have h3 : 1000 * 1 ≤ 1000 * 2 ^ i := Nat.mul_le_mul_left 1000 h2
  omega

theorem matches_not_retried (key : String) (value : JSVal) (r : HttpReply)
    (h : r.Matches key value) : ¬ r.Retried key value :=
  fun hr => retried_not_matches key value r hr h

theorem throws_not_retried (key : String) (value : JSVal) (r : HttpReply)
    (h : r.Throws key) : ¬ r.Retried key value := by
  obtain ⟨he, hc⟩ := h
  rintro (h1 | ⟨hs, v, hv, _⟩)
  · simp [he] at h1
  · rcases hc with hc | hc
    · exact hc hs
    · simp [hc] at hv

/-- The events of a poll run are retried attempts, each followed by its backoff
delay, then nothing more or one last fetch that is not retried. -/
theorem PollRun.schedule {nodeURL key : String} {value : JSVal} {more : Nat} {b : Backoff}
    {ext : List Event} {res : Option (Callback Body)}
    (h : PollRun nodeURL key value more b ext res) :
    b.ms = 1000 → b.factor = 2 → b.max = 60000 →
      ∃ rs final, ext = retryEvents nodeURL b.attempts rs ++ final ∧
        (∀ r ∈ rs, r.Retried key value) ∧
        (final = [] ∨ ∃ r, final = [healthEvent nodeURL r] ∧ ¬ r.Retried key value) ∧
        (final = [] ↔ res = some ⟨true, Body.undefined⟩) := by
  induction h with
  | matched more b r h =>
    intro _ _ _
    exact ⟨[], [healthEvent nodeURL r], by simp [retryEvents], by simp,
      Or.inr ⟨r, rfl, matches_not_retried key value r h⟩, by simp⟩
  | thrown more b r h =>
    intro _ _ _
    exact ⟨[], [healthEvent nodeURL r], by simp [retryEvents], by simp,
      Or.inr ⟨r, rfl, throws_not_retried key value r h⟩, by simp⟩
  | exhausted b r h =>
    intro hms hf hmax
    refine ⟨[r], [], ?_, by simpa using h, Or.inl rfl, by simp⟩
    simp [retryEvents, Backoff.duration, hms, hf, hmax]
  | again more b r h ext res rest ih =>
    intro hms hf hmax
    obtain ⟨rs, final, hext, hrs, hfin, hres⟩ := ih (by simpa [Backoff.duration] using hms)
      (by simpa [Backoff.duration] using hf) (by simpa [Backoff.duration] using hmax)
    refine ⟨r :: rs, final, ?_, ?_, hfin, hres⟩
    · rw [hext]
      simp [retryEvents, Backoff.duration, hms, hf, hmax]
    · intro r' hr'
      simp only [List.mem_cons] at hr'
      rcases hr' with rfl | hr'
      · exact h
      · exact hrs r' hr'

/-! ## Claims on `waitForState` -/

/-- C1, counterexample: with `maxAttempts = 0` and an endpoint that is down,
`waitForState` performs five health fetches (the default of `async.retry`), not
at most zero, before it reports the error. -/
theorem waitForState_zero_attempts :
    ((waitForState downWorld clusterUrl 0 "status" (JSVal.str "green") []).2.filter
        Event.isFetch).length = 5 ∧
      ¬ ((waitForState downWorld clusterUrl 0 "status" (JSVal.str "green") []).2.filter
        Event.isFetch).length ≤ 0 ∧
      (waitForState downWorld clusterUrl 0 "status" (JSVal.str "green") []).1 =
        some ⟨true, Body.undefined⟩ := by
  decide

/-- C5, the code at the failing input: a health fetch answered with status 503
and no transport error makes the first attempt of `waitForState` throw; there is
no backoff delay, no second fetch and no callback. -/
theorem waitForState_unavailable_throws :
    waitForState unavailableWorld clusterUrl 3 "status" (JSVal.str "green") [] =
      (none, [waitEvent clusterUrl 3 "status" (JSVal.str "green"),
              healthEvent clusterUrl ⟨false, 503, Body.undefined⟩]) := by
  decide

/-- C1, for `1 ≤ N`: `waitForState` with `maxAttempts = N` performs at
most `N` health fetches (`ext` are the events it issues after its entry); when
it reports success, the snapshot it hands over is that of the last fetch, which
matches `snapshot[field] === expected`, while no earlier fetch matched; when it
reports an error, exactly `N` fetches were made and none of them matched; and a
matching fetch always ends the call with success. -/
theorem waitForState_contract (w : World) (nodeURL : String) (N : Nat) (key : String)
    (value : JSVal) (tr : Trace) (hN : 1 ≤ N) :
    ∃ ext, (waitForState w nodeURL N key value tr).2 =
        tr ++ waitEvent nodeURL N key value :: ext ∧
      (ext.filter Event.isFetch).length ≤ N ∧
      (∀ cb, (waitForState w nodeURL N key value tr).1 = some cb → cb.error = false →
        ∃ pre r, ext = pre ++ [healthEvent nodeURL r] ∧ r.Matches key value ∧
          cb.data = r.body ∧ ∀ e ∈ pre, ¬ e.Matches key value) ∧
      (∀ cb, (waitForState w nodeURL N key value tr).1 = some cb → cb.error = true →
        (ext.filter Event.isFetch).length = N ∧ ∀ e ∈ ext, ¬ e.Matches key value) ∧
      ((∃ e ∈ ext, e.Matches key value) →
        ∃ cb, (waitForState w nodeURL N key value tr).1 = some cb ∧ cb.error = false) := by
  obtain ⟨ext, hrun, htr⟩ := waitForState_pollRun w nodeURL N key value tr
  have hN' : asyncRetryTimes N - 1 + 1 = N := by
    unfold asyncRetryTimes
    split <;> omega
  refine ⟨ext, htr, ?_, ?_, ?_, hrun.matches_imp⟩
  · have := hrun.fetches_le
    omega
  · intro cb hcb he
    obtain ⟨pre, r, h1, h2, h3, h4, _⟩ := hrun.success cb hcb he
    exact ⟨pre, r, h1, h2, h3, h4⟩
  · intro cb hcb he
    obtain ⟨h1, h2⟩ := hrun.failure cb hcb he
    exact ⟨by omega, h2⟩

/-- C1, witness: the contract at `N = 3` on the cluster entry url in the world
where every request succeeds. -/
theorem waitForState_contract_witness :
    1 ≤ 3 ∧
    ∃ ext, (waitForState happyWorld clusterUrl 3 "status" (JSVal.str "green") []).2 =
        [] ++ waitEvent clusterUrl 3 "status" (JSVal.str "green") :: ext ∧
      (ext.filter Event.isFetch).length ≤ 3 ∧
      (∀ cb, (waitForState happyWorld clusterUrl 3 "status" (JSVal.str "green") []).1 = some cb →
        cb.error = false →
        ∃ pre r, ext = pre ++ [healthEvent clusterUrl r] ∧
          r.Matches "status" (JSVal.str "green") ∧
          cb.data = r.body ∧ ∀ e ∈ pre, ¬ e.Matches "status" (JSVal.str "green")) ∧
      (∀ cb, (waitForState happyWorld clusterUrl 3 "status" (JSVal.str "green") []).1 = some cb →
        cb.error = true →
        (ext.filter Event.isFetch).length = 3 ∧
          ∀ e ∈ ext, ¬ e.Matches "status" (JSVal.str "green")) ∧
      ((∃ e ∈ ext, e.Matches "status" (JSVal.str "green")) →
        ∃ cb, (waitForState happyWorld clusterUrl 3 "status" (JSVal.str "green") []).1 =
          some cb ∧ cb.error = false) :=
  ⟨by decide, waitForState_contract happyWorld clusterUrl 3 "status" (JSVal.str "green") []
    (by decide)⟩

/-- C6: the events of one `waitForState` call are its entry, then the retried
attempts number 0, 1, 2, ... of the call (`rs` are their replies), each health
fetch followed at once by a wait of `min(1000 * 2^i, 60000)` ms, then either
nothing more, exactly when the call reports the error, or one last fetch that is
not retried and has no wait; the numbering starts at 0 in every call.  So after
every retried attempt a delay is waited, the delays of the call are
`min(1000 * 2^i, 60000)` for `i` below the number of retried attempts, there are
as many delays as retried attempts, they are non-decreasing, and each lies
between 1000 and 60000 ms. -/
theorem waitForState_backoff (w : World) (nodeURL : String) (N : Nat) (key : String)
    (value : JSVal) (tr : Trace) :
    ∃ (rs : List HttpReply) (final : List Event),
      (waitForState w nodeURL N key value tr).2 =
        tr ++ waitEvent nodeURL N key value :: (retryEvents nodeURL 0 rs ++ final) ∧
      (∀ r ∈ rs, r.Retried key value) ∧
      (final = [] ∨ ∃ r, final = [healthEvent nodeURL r] ∧ ¬ r.Retried key value) ∧
      (final = [] ↔ (waitForState w nodeURL N key value tr).1 = some ⟨true, Body.undefined⟩) ∧
      (∀ e ∈ final, e.delay = none) ∧
      (waitEvent nodeURL N key value :: (retryEvents nodeURL 0 rs ++ final)).filterMap
          Event.delay = (List.range rs.length).map (fun i => min (1000 * 2 ^ i) 60000) ∧
      ((waitEvent nodeURL N key value :: (retryEvents nodeURL 0 rs ++ final)).filterMap
          Event.delay).length = rs.length ∧
      List.Pairwise (fun a b => a ≤ b)
        ((waitEvent nodeURL N key value :: (retryEvents nodeURL 0 rs ++ final)).filterMap
          Event.delay) ∧
      (∀ d ∈ (waitEvent nodeURL N key value :: (retryEvents nodeURL 0 rs ++ final)).filterMap
          Event.delay, 1000 ≤ d ∧ d ≤ 60000) := by
  obtain ⟨ext, hrun, htr⟩ := waitForState_pollRun w nodeURL N key value tr
  obtain ⟨rs, final, hext, hrs, hshape, hres⟩ := hrun.schedule rfl rfl rfl
  have hfin : ∀ e ∈ final, e.delay = none := by
    rcases hshape with h | ⟨r, h, _⟩
    · rw [h]
      intro e he
      cases he
    · rw [h]
      intro e he
      simp only [List.mem_singleton] at he
      subst he
      rfl
  have hfm : final.filterMap Event.delay = [] := by
    rw [List.filterMap_eq_nil_iff]
    exact hfin
  have hd : (waitEvent nodeURL N key value :: (retryEvents nodeURL 0 rs ++ final)).filterMap
      Event.delay = (List.range rs.length).map (fun i => min (1000 * 2 ^ i) 60000) := by
    have h0 : (waitEvent nodeURL N key value).delay = none := rfl
    rw [List.filterMap_cons, h0]
    simp only [List.filterMap_append, hfm, List.append_nil]
    rw [retryEvents_delays]
    simp
  refine ⟨rs, final, ?_, hrs, hshape, hres, hfin, hd, ?_, ?_, ?_⟩
  · rw [htr, hext]
  · rw [hd]
    simp
  · rw [hd, List.pairwise_map]
    exact (List.pairwise_lt_range rs.length).imp (fun h => backoff_delay_mono (Nat.le_of_lt h))
  · intro d hmem
    rw [hd, List.mem_map] at hmem
    obtain ⟨i, _, rfl⟩ := hmem
    exact backoff_delay_bounds i

/-- C6, an instance: an endpoint that is down, polled with three attempts: all
three attempts are retried and the waits are 1000, 2000 and 4000 ms. -/
theorem waitForState_backoff_witness :
    (waitForState downWorld clusterUrl 3 "status" (JSVal.str "green") []).2 =
      [] ++ waitEvent clusterUrl 3 "status" (JSVal.str "green") ::
        (retryEvents clusterUrl 0
          [⟨true, 0, Body.undefined⟩, ⟨true, 0, Body.undefined⟩, ⟨true, 0, Body.undefined⟩]
          ++ []) ∧
      (waitForState downWorld clusterUrl 3 "status" (JSVal.str "green") []).2.filterMap
        Event.delay = [1000, 2000, 4000] ∧
      ∃ (rs : List HttpReply) (final : List Event),
        (waitForState downWorld clusterUrl 3 "status" (JSVal.str "green") []).2 =
          [] ++ waitEvent clusterUrl 3 "status" (JSVal.str "green") ::
            (retryEvents clusterUrl 0 rs ++ final) ∧
        (final = [] ↔ (waitForState downWorld clusterUrl 3 "status" (JSVal.str "green") []).1 =
          some ⟨true, Body.undefined⟩) :=
  ⟨by decide, by decide,
    (waitForState_backoff downWorld clusterUrl 3 "status" (JSVal.str "green") []).imp
      (fun _ h => h.imp (fun _ h' => ⟨h'.1, h'.2.2.2.1⟩))⟩

/-! ## Claims on `shardAllocation` and `clusterNodeURLs` -/

/-- C4, counterexample: a 200 response without transport error whose body has
no `acknowledged` field is reported as success, with the body, although
`acknowledged` is not `true`. -/
theorem shardAllocation_silent_is_success :
    (shardAllocation silentWorld clusterUrl "disable" []).1 = some ⟨false, Body.obj []⟩ ∧
      (silentWorld.http 0).error = false ∧ (silentWorld.http 0).statusCode = 200 ∧
      (silentWorld.http 0).body.getProp "acknowledged" ≠ some (JSVal.bool true) := by
  decide

/-- C4, as the code decides it: `shardAllocation` issues one PUT of the allocation setting
(`"all"` for `enable`, `"none"` otherwise); it reports an error whenever there is
a transport error; and it reports success, with the body, whenever there is no
transport error, the status is 200 and the body is an object whose
`acknowledged` is not `false`, be it `true` or absent. -/
theorem shardAllocation_contract (w : World) (nodeURL state : String) (tr : Trace) :
    (shardAllocation w nodeURL state tr).2 =
        tr ++ [⟨Op.put (nodeURL ++ "/_cluster/settings")
          (if state = "enable" then "all" else "none"), Reply.http (w.http tr.length)⟩] ∧
      ((w.http tr.length).error = true →
        (shardAllocation w nodeURL state tr).1 = some ⟨true, Body.undefined⟩) ∧
      ((w.http tr.length).error = false → (w.http tr.length).statusCode = 200 →
        ∀ v, (w.http tr.length).body.getProp "acknowledged" = some v → v ≠ JSVal.bool false →
          (shardAllocation w nodeURL state tr).1 = some ⟨false, (w.http tr.length).body⟩) := by
  refine ⟨?_, ?_, ?_⟩
  · unfold shardAllocation
    simp only
    split
    · rfl
    · split
      · rfl
      · split <;> rfl
  · intro he
    simp [shardAllocation, he]
  · intro he hs v hv hne
    simp [shardAllocation, he, hs, hv, hne]

theorem splitSlash_ne_nil : ∀ l : List Char, splitSlash l ≠ []
  | [] => by simp [splitSlash]
  | c :: cs => by
    unfold splitSlash
    split
    · simp
    · split <;> simp

theorem splitSlash_of_not_mem : ∀ l : List Char, '/' ∉ l → splitSlash l = [l]
  | [], _ => rfl
  | c :: cs, h => by
    have hc : c ≠ '/' := fun e => h (by simp [e])
    have hcs : '/' ∉ cs := fun e => h (List.mem_cons_of_mem _ e)
    simp [splitSlash, hc, splitSlash_of_not_mem cs hcs]

theorem splitSlash_append : ∀ (a rest : List Char), '/' ∉ a →
    splitSlash (a ++ '/' :: rest) = a :: splitSlash rest
  | [], rest, _ => by simp [splitSlash]
  | c :: cs, rest, h => by
    have hc : c ≠ '/' := fun e => h (by simp [e])
    have hcs : '/' ∉ cs := fun e => h (List.mem_cons_of_mem _ e)
    simp [splitSlash, hc, splitSlash_append cs rest hcs]

theorem nodeAddress_isSome_of_slash (s : String) (h : '/' ∈ s.data) :
    ∃ address, nodeAddress (JSVal.str s) = some address := by
  obtain ⟨a, rest, hs, ha⟩ := List.eq_append_cons_of_mem h
  have hsplit := splitSlash_append a rest ha
  cases hr : splitSlash rest with
  | nil => exact absurd hr (splitSlash_ne_nil rest)
  | cons seg more =>
    refine ⟨String.mk (seg.erase ']'), ?_⟩
    simp [nodeAddress, hs, hsplit, hr]

theorem nodeAddress_bracketed (pre id hostport : String) (hpre : '/' ∉ pre.data)
    (hid : '/' ∉ id.data) (hhp : '/' ∉ hostport.data) (hb : ']' ∉ hostport.data) :
    nodeAddress (JSVal.str (pre ++ "[" ++ id ++ "/" ++ hostport ++ "]")) = some hostport := by
  have hdata : (pre ++ "[" ++ id ++ "/" ++ hostport ++ "]").data =
      (pre.data ++ '[' :: id.data) ++ '/' :: (hostport.data ++ [']']) := by
    simp [String.data_append]
  have h1 : '/' ∉ pre.data ++ '[' :: id.data := by
    simp [hpre, hid]
  have h2 : '/' ∉ hostport.data ++ [']'] := by
    simp [hhp]
  have hsplit : splitSlash ((pre ++ "[" ++ id ++ "/" ++ hostport ++ "]").data) =
      [pre.data ++ '[' :: id.data, hostport.data ++ [']']] := by
    rw [hdata, splitSlash_append _ _ h1, splitSlash_of_not_mem _ h2]
  have herase : (hostport.data ++ [']']).erase ']' = hostport.data := by
    rw [List.erase_append_right _ hb]
    simp
  simp only [nodeAddress, hsplit]
  simp [herase]

/-- The node object built from an entry. -/
theorem nodesLoop_spec : ∀ (entries : List NodeEntry) (acc : List Node),
    (∀ e ∈ entries, ∃ s, e.http_address = JSVal.str s ∧ '/' ∈ s.data) →
    ∃ ns, nodesLoop entries acc = some (acc ++ ns) ∧
      List.Forall₂ (fun (e : NodeEntry) (n : Node) => n.name = e.name ∧ n.host = e.host ∧
        ∃ address, nodeAddress e.http_address = some address ∧ n.http = "http://" ++ address)
        entries ns
  | [], acc, _ => ⟨[], by simp [nodesLoop], List.Forall₂.nil⟩
  | e :: es, acc, h => by
    obtain ⟨s, hs, hmem⟩ := h e (List.mem_cons_self _ _)
    obtain ⟨address, haddr⟩ := nodeAddress_isSome_of_slash s hmem
    obtain ⟨ns, hns, hall⟩ := nodesLoop_spec es
      (acc ++ [{ name := e.name, http := "http://" ++ address, host := e.host }])
      (fun e' he' => h e' (List.mem_cons_of_mem _ he'))
    refine ⟨{ name := e.name, http := "http://" ++ address, host := e.host } :: ns, ?_, ?_⟩
    · rw [nodesLoop, hs, haddr]
      simpa using hns
    · exact List.Forall₂.cons ⟨rfl, rfl, address, by rw [hs, haddr], rfl⟩ hall

/-- C9, counterexample: a successful node list with an entry whose address has
no slash makes `clusterNodeURLs` throw, so no node list is returned; and for the
address `a/b[x/10.0.0.1:9200]`, of the bracketed form with a slash in the part
before the bracket, the endpoint is `http://b[x`, not `http://10.0.0.1:9200`. -/
theorem clusterNodeURLs_counterexample :
    (clusterNodeURLs plainAddressWorld clusterUrl []).1 = none ∧
      (clusterNodeURLs slashPrefixWorld clusterUrl []).1 =
        some ⟨false, some [⟨JSVal.str "A", "http://b[x", JSVal.str "hostA"⟩]⟩ ∧
      ("http://b[x" : String) ≠ "http://" ++ "10.0.0.1:9200" := by
  decide

/-- C9, for addresses with a slash: when the node-list request succeeds and every entry's
`http_address` is a string that contains a slash, `clusterNodeURLs` calls back
without error with one node per entry, in entry order, whose name and host are
the entry's; and when an entry's address is `prefix[id/hostport]` with no slash
in `prefix`, `id` and `hostport` and no `]` in `hostport`, that node's endpoint
is `http://hostport`. -/
theorem clusterNodeURLs_contract (w : World) (url : String) (tr : Trace)
    (herr : (w.nodes tr.length).error = false) (hstatus : (w.nodes tr.length).statusCode = 200)
    (hslash : ∀ e ∈ (w.nodes tr.length).nodes,
      ∃ s, e.http_address = JSVal.str s ∧ '/' ∈ s.data) :
    ∃ ns, (clusterNodeURLs w url tr).1 = some ⟨false, some ns⟩ ∧
      List.Forall₂ (fun (e : NodeEntry) (n : Node) => n.name = e.name ∧ n.host = e.host ∧
        ∀ pre id hostport : String,
          e.http_address = JSVal.str (pre ++ "[" ++ id ++ "/" ++ hostport ++ "]") →
          '/' ∉ pre.data → '/' ∉ id.data → '/' ∉ hostport.data → ']' ∉ hostport.data →
          n.http = "http://" ++ hostport)
        (w.nodes tr.length).nodes ns := by
  obtain ⟨ns, hns, hall⟩ := nodesLoop_spec (w.nodes tr.length).nodes [] hslash
  refine ⟨ns, ?_, ?_⟩
  · simp only [List.nil_append] at hns
    simp [clusterNodeURLs, herr, hstatus, hns]
  · refine hall.imp ?_
    rintro e n ⟨h1, h2, address, haddr, hhttp⟩
    refine ⟨h1, h2, ?_⟩
    intro pre id hostport he hpre hid hhp hb
    rw [he, nodeAddress_bracketed pre id hostport hpre hid hhp hb] at haddr
    rw [hhttp, ← Option.some.inj haddr]

/-- C9, witness: the three-node list of the world where every request succeeds. -/
theorem clusterNodeURLs_contract_witness :
    ∃ ns, (clusterNodeURLs happyWorld clusterUrl []).1 = some ⟨false, some ns⟩ ∧
      List.Forall₂ (fun (e : NodeEntry) (n : Node) => n.name = e.name ∧ n.host = e.host ∧
        ∀ pre id hostport : String,
          e.http_address = JSVal.str (pre ++ "[" ++ id ++ "/" ++ hostport ++ "]") →
          '/' ∉ pre.data → '/' ∉ id.data → '/' ∉ hostport.data → ']' ∉ hostport.data →
          n.http = "http://" ++ hostport)
        (happyWorld.nodes ([] : Trace).length).nodes ns :=
  clusterNodeURLs_contract happyWorld clusterUrl [] rfl rfl (by
    intro e he
    simp only [happyWorld, List.mem_cons, List.mem_singleton, List.not_mem_nil, or_false] at he
    rcases he with rfl | rfl | rfl <;> exact ⟨_, rfl, by decide⟩)

/-! ## The orchestrator refines the run relations -/

theorem waitForState_waitRun (w : World) (nodeURL : String) (N : Nat) (key : String)
    (value : JSVal) (tr : Trace) :
    ∃ ev, WaitRun nodeURL N key value ev (waitForState w nodeURL N key value tr).1 ∧
      (waitForState w nodeURL N key value tr).2 = tr ++ ev := by
  obtain ⟨ext, hrun, htr⟩ := waitForState_pollRun w nodeURL N key value tr
  exact ⟨_, ⟨ext, rfl, hrun⟩, htr⟩

theorem succeeded_or (res : Option (Callback Body)) :
    (Succeeded res ∧ res.map (fun cb => cb.error) = some false) ∨
      (¬ Succeeded res ∧ res.map (fun cb => cb.error) ≠ some false) := by
  cases res with
  | none =>
    refine Or.inr ⟨?_, by simp⟩
    rintro ⟨cb, h, _⟩
    cases h
  | some cb =>
    cases he : cb.error
    · exact Or.inl ⟨⟨cb, rfl, he⟩, by simp [he]⟩
    · refine Or.inr ⟨?_, by simp [he]⟩
      rintro ⟨cb', h, h'⟩
      cases h
      simp [he] at h'

theorem asyncSeries_cons_ok (t : Task) (rest : List Task) (tr : Trace)
    (h : (t tr).1 = some false) : asyncSeries (t :: rest) tr = asyncSeries rest (t tr).2 := by
  rw [asyncSeries]
  split
  · rename_i tr1 heq
    rw [heq] at h
    cases h
  · rename_i error tr1 heq
    rw [heq] at h
    cases h
    simp [heq]

theorem asyncSeries_cons_stop (t : Task) (rest : List Task) (tr : Trace)
    (h : (t tr).1 ≠ some false) :
    (asyncSeries (t :: rest) tr).2 = (t tr).2 ∧
      (asyncSeries (t :: rest) tr).1 ≠ some false ∧
      exitOfStep (asyncSeries (t :: rest) tr).1 = exitOfStep (t tr).1 := by
  rw [asyncSeries]
  split
  · rename_i tr1 heq
    simp [heq]
  · rename_i error tr1 heq
    rw [heq] at h
    cases error
    · exact absurd rfl h
    · simp [heq, exitOfStep]

theorem shardAllocation_trace (w : World) (nodeURL state : String) (tr : Trace) :
    (shardAllocation w nodeURL state tr).2 =
      tr ++ [putEvent nodeURL (if state = "enable" then "all" else "none")
        (w.http tr.length)] := by
  unfold shardAllocation
  simp only
  split
  · rfl
  · split
    · rfl
    · split <;> rfl

theorem shutdownNode_spec (w : World) (nodeURL : String) (tr : Trace) :
    (shutdownNode w nodeURL tr).2 = tr ++ [postEvent nodeURL (w.http tr.length)] ∧
      (shutdownNode w nodeURL tr).1.error = (w.http tr.length).error := by
  unfold shutdownNode
  simp only
  split
  · exact ⟨rfl, rfl⟩
  · rename_i h
    refine ⟨rfl, ?_⟩
    cases he : (w.http tr.length).error
    · rfl
    · simp [he] at h

theorem startElasticSearch_spec (w : World) (host : JSVal) (sleepSeconds : Nat) (tr : Trace) :
    (startElasticSearch w host sleepSeconds tr).2 =
        tr ++ [sshEvent host sleepSeconds (w.exitCode tr.length)] ∧
      ((startElasticSearch w host sleepSeconds tr).1.error = false ↔
        w.exitCode tr.length = 0) := by
  unfold startElasticSearch
  simp only
  split
  · rename_i h
    exact ⟨rfl, by simp [h]⟩
  · rename_i h
    exact ⟨rfl, by simpa using h⟩

theorem exitOfStep_ne_success (o : Option Bool) : exitOfStep o ≠ Exit.success := by
  cases o <;> simp [exitOfStep]

/-- A poll step of `eachNode`: it succeeds and the series goes on, or it stops
the series. -/
theorem series_poll_step (w : World) (nodeCount : JSVal) (node : Node)
    (n : Nat) (key : String) (value : JSVal) (rest : List Task) (k : Nat) (base pre : Trace)
    (hpre : NodeSteps nodeCount node k pre)
    (hok : ∀ p res, WaitRun node.http n key value p res → Succeeded res →
      NodeSteps nodeCount node (k + 1) (pre ++ p))
    (hstop : ∀ p res, WaitRun node.http n key value p res → ¬ Succeeded res →
      NodeStop nodeCount node k p (exitOfStep (res.map (fun cb => cb.error))))
    (hrest : ∀ pre', NodeSteps nodeCount node (k + 1) pre' →
      SeriesOut nodeCount node base (asyncSeries rest (base ++ pre'))) :
    SeriesOut nodeCount node base
      (asyncSeries ((fun t => taskOfOption (waitForState w node.http n key value t)) :: rest)
        (base ++ pre)) := by
  obtain ⟨p, hrun, htr⟩ := waitForState_waitRun w node.http n key value (base ++ pre)
  rcases succeeded_or (waitForState w node.http n key value (base ++ pre)).1 with ⟨hs, ho⟩ | ⟨hs, ho⟩
  · rw [asyncSeries_cons_ok _ _ _ (by simpa [taskOfOption] using ho)]
    have h2 : (taskOfOption (waitForState w node.http n key value (base ++ pre))).2 =
        base ++ (pre ++ p) := by
      simp [taskOfOption, htr]
    simp only [h2]
    exact hrest _ (hok p _ hrun hs)
  · obtain ⟨h1, h2, h3⟩ := asyncSeries_cons_stop
      (fun t => taskOfOption (waitForState w node.http n key value t)) rest (base ++ pre)
      (by simpa [taskOfOption] using ho)
    refine ⟨pre ++ p, ?_, Or.inr ⟨h2, k, pre, p, rfl, hpre, ?_⟩⟩
    · rw [h1]
      simp [taskOfOption, htr]
    · rw [h3]
      exact hstop p _ hrun hs

/-- An allocation step of `eachNode`. -/
theorem series_put_step (w : World) (nodeCount : JSVal) (node : Node)
    (state : String) (rest : List Task) (k : Nat) (base pre : Trace)
    (hpre : NodeSteps nodeCount node k pre)
    (hok : ∀ r, NodeSteps nodeCount node (k + 1)
      (pre ++ [putEvent node.http (if state = "enable" then "all" else "none") r]))
    (hstop : ∀ r e, e ≠ Exit.success → NodeStop nodeCount node k
      [putEvent node.http (if state = "enable" then "all" else "none") r] e)
    (hrest : ∀ pre', NodeSteps nodeCount node (k + 1) pre' →
      SeriesOut nodeCount node base (asyncSeries rest (base ++ pre'))) :
    SeriesOut nodeCount node base
      (asyncSeries ((fun t => taskOfOption (shardAllocation w node.http state t)) :: rest)
        (base ++ pre)) := by
  have htr := shardAllocation_trace w node.http state (base ++ pre)
  by_cases ho : (taskOfOption (shardAllocation w node.http state (base ++ pre))).1 = some false
  · rw [asyncSeries_cons_ok (fun t => taskOfOption (shardAllocation w node.http state t)) rest
      (base ++ pre) ho]
    have h2 : (taskOfOption (shardAllocation w node.http state (base ++ pre))).2 =
        base ++ (pre ++ [putEvent node.http (if state = "enable" then "all" else "none")
          (w.http (base ++ pre).length)]) := by
      simp [taskOfOption, htr]
    simp only [h2]
    exact hrest _ (hok _)
  · obtain ⟨h1, h2, h3⟩ := asyncSeries_cons_stop
      (fun t => taskOfOption (shardAllocation w node.http state t)) rest (base ++ pre) ho
    refine ⟨pre ++ [putEvent node.http (if state = "enable" then "all" else "none")
      (w.http (base ++ pre).length)], ?_, Or.inr ⟨h2, k, pre, _, rfl, hpre, ?_⟩⟩
    · rw [h1]
      simp [taskOfOption, htr]
    · exact hstop _ _ (exitOfStep_ne_success _)

/-- The tasks of `eachNode` from step `k` on, after `k` successful steps. -/
theorem series_from_7 (w : World) (nodeCount : JSVal) (node : Node) (base pre : Trace)
    (hpre : NodeSteps nodeCount node 7 pre) :
    SeriesOut nodeCount node base (asyncSeries ((nodeTasks w nodeCount node).drop 7) (base ++ pre)) :=
  ⟨pre, rfl, Or.inl ⟨rfl, hpre⟩⟩

theorem series_from_6 (w : World) (nodeCount : JSVal) (node : Node) (base pre : Trace)
    (hpre : NodeSteps nodeCount node 6 pre) :
    SeriesOut nodeCount node base (asyncSeries ((nodeTasks w nodeCount node).drop 6) (base ++ pre)) :=
  series_poll_step w nodeCount node 60 "status" (JSVal.str "green")
    ((nodeTasks w nodeCount node).drop 7) 6 base pre hpre
    (fun p res hp hs => NodeSteps.settled pre p res hpre hp hs)
    (fun p res hp hs => NodeStop.lastPoll p res hp hs)
    (fun pre' h => series_from_7 w nodeCount node base pre' h)

theorem series_from_5 (w : World) (nodeCount : JSVal) (node : Node) (base pre : Trace)
    (hpre : NodeSteps nodeCount node 5 pre) :
    SeriesOut nodeCount node base (asyncSeries ((nodeTasks w nodeCount node).drop 5) (base ++ pre)) :=
  series_put_step w nodeCount node "enable" ((nodeTasks w nodeCount node).drop 6) 5 base pre hpre
    (fun r => NodeSteps.enable pre r hpre)
    (fun r e he => NodeStop.enable r e he)
    (fun pre' h => series_from_6 w nodeCount node base pre' h)

theorem series_from_4 (w : World) (nodeCount : JSVal) (node : Node) (base pre : Trace)
    (hpre : NodeSteps nodeCount node 4 pre) :
    SeriesOut nodeCount node base (asyncSeries ((nodeTasks w nodeCount node).drop 4) (base ++ pre)) :=
  series_poll_step w nodeCount node 10 "number_of_nodes" nodeCount
    ((nodeTasks w nodeCount node).drop 5) 4 base pre hpre
    (fun p res hp hs => NodeSteps.rejoined pre p res hpre hp hs)
    (fun p res hp hs => NodeStop.rejoin p res hp hs)
    (fun pre' h => series_from_5 w nodeCount node base pre' h)

theorem series_from_3 (w : World) (nodeCount : JSVal) (node : Node) (base pre : Trace)
    (hpre : NodeSteps nodeCount node 3 pre) :
    SeriesOut nodeCount node base
      (asyncSeries ((nodeTasks w nodeCount node).drop 3) (base ++ pre)) := by
  obtain ⟨htr, herr⟩ := startElasticSearch_spec w node.host 10 (base ++ pre)
  show SeriesOut nodeCount node base
    (asyncSeries ((fun t => taskOf (startElasticSearch w node.host 10 t)) ::
      (nodeTasks w nodeCount node).drop 4) (base ++ pre))
  by_cases hc : w.exitCode (base ++ pre).length = 0
  · have ho : (taskOf (startElasticSearch w node.host 10 (base ++ pre))).1 = some false := by
      simp [taskOf, herr.mpr hc]
    rw [asyncSeries_cons_ok (fun t => taskOf (startElasticSearch w node.host 10 t)) _
      (base ++ pre) ho]
    have h2 : (taskOf (startElasticSearch w node.host 10 (base ++ pre))).2 =
        base ++ (pre ++ [sshEvent node.host 10 0]) := by
      simp only [taskOf, htr, hc, List.append_assoc]
    simp only [h2]
    exact series_from_4 w nodeCount node base _ (NodeSteps.started pre hpre)
  · have ho : (taskOf (startElasticSearch w node.host 10 (base ++ pre))).1 ≠ some false := by
      intro h
      apply hc
      apply herr.mp
      simpa [taskOf] using h
    obtain ⟨h1, h2, h3⟩ := asyncSeries_cons_stop
      (fun t => taskOf (startElasticSearch w node.host 10 t))
      ((nodeTasks w nodeCount node).drop 4) (base ++ pre) ho
    refine ⟨pre ++ [sshEvent node.host 10 (w.exitCode (base ++ pre).length)], ?_,
      Or.inr ⟨h2, 3, pre, _, rfl, hpre, ?_⟩⟩
    · rw [h1]
      simp [taskOf, htr]
    · rw [h3]
      simp only [taskOf, exitOfStep]
      exact NodeStop.start _ hc

theorem series_from_2 (w : World) (nodeCount : JSVal) (node : Node) (base pre : Trace)
    (hpre : NodeSteps nodeCount node 2 pre) :
    SeriesOut nodeCount node base
      (asyncSeries ((nodeTasks w nodeCount node).drop 2) (base ++ pre)) := by
  obtain ⟨htr, herr⟩ := shutdownNode_spec w node.http (base ++ pre)
  show SeriesOut nodeCount node base
    (asyncSeries ((fun t => taskOf (shutdownNode w node.http t)) ::
      (nodeTasks w nodeCount node).drop 3) (base ++ pre))
  cases he : (w.http (base ++ pre).length).error
  · have ho : (taskOf (shutdownNode w node.http (base ++ pre))).1 = some false := by
      simp only [taskOf, herr, he]
    rw [asyncSeries_cons_ok (fun t => taskOf (shutdownNode w node.http t)) _
      (base ++ pre) ho]
    have h2 : (taskOf (shutdownNode w node.http (base ++ pre))).2 =
        base ++ (pre ++ [postEvent node.http (w.http (base ++ pre).length)]) := by
      simp [taskOf, htr]
    simp only [h2]
    exact series_from_3 w nodeCount node base _ (NodeSteps.shutdown pre _ hpre he)
  · have ho : (taskOf (shutdownNode w node.http (base ++ pre))).1 ≠ some false := by
      simp only [taskOf, herr, he]
      simp
    obtain ⟨h1, h2, h3⟩ := asyncSeries_cons_stop
      (fun t => taskOf (shutdownNode w node.http t))
      ((nodeTasks w nodeCount node).drop 3) (base ++ pre) ho
    refine ⟨pre ++ [postEvent node.http (w.http (base ++ pre).length)], ?_,
      Or.inr ⟨h2, 2, pre, _, rfl, hpre, ?_⟩⟩
    · rw [h1]
      simp [taskOf, htr]
    · rw [h3]
      simp only [taskOf, exitOfStep]
      exact NodeStop.shutdown _ he

theorem series_from_1 (w : World) (nodeCount : JSVal) (node : Node) (base pre : Trace)
    (hpre : NodeSteps nodeCount node 1 pre) :
    SeriesOut nodeCount node base (asyncSeries ((nodeTasks w nodeCount node).drop 1) (base ++ pre)) :=
  series_put_step w nodeCount node "disable" ((nodeTasks w nodeCount node).drop 2) 1 base pre hpre
    (fun r => NodeSteps.disable pre r hpre)
    (fun r e he => NodeStop.disable r e he)
    (fun pre' h => series_from_2 w nodeCount node base pre' h)

theorem series_from_0 (w : World) (nodeCount : JSVal) (node : Node) (base pre : Trace)
    (hpre : NodeSteps nodeCount node 0 pre) :
    SeriesOut nodeCount node base (asyncSeries ((nodeTasks w nodeCount node).drop 0) (base ++ pre)) :=
  series_poll_step w nodeCount node 10 "status" (JSVal.str "green")
    ((nodeTasks w nodeCount node).drop 1) 0 base pre hpre
    (fun p res hp hs => NodeSteps.green pre p res hpre hp hs)
    (fun p res hp hs => NodeStop.green p res hp hs)
    (fun pre' h => series_from_1 w nodeCount node base pre' h)

/-- The function `eachNode` refines `NodeRun`. -/
theorem eachNode_nodeRun (w : World) (nodeCount : JSVal) (node : Node) (tr : Trace) :
    ∃ ev, NodeRun nodeCount node ev (eachNode w nodeCount node tr).1 ∧
      (eachNode w nodeCount node tr).2 = tr ++ ev := by
  have h := series_from_0 w nodeCount node tr [] NodeSteps.start
  simp only [List.append_nil] at h
  obtain ⟨ev, htr, hcase⟩ := h
  have he : eachNode w nodeCount node tr =
      (match (asyncSeries ((nodeTasks w nodeCount node).drop 0) tr).1 with
        | none => some Exit.uncaught
        | some error => if error then some Exit.failure else none,
       (asyncSeries ((nodeTasks w nodeCount node).drop 0) tr).2) := by
    simp only [eachNode, nodeTasks, List.drop_zero]
    split
    · rename_i tr1 heq
      simp [heq]
    · rename_i error tr1 heq
      simp only [heq]
      split <;> rfl
  rw [he]
  refine ⟨ev, ?_, htr⟩
  rcases hcase with ⟨ho, hsteps⟩ | ⟨ho, k, pre, last, hev, hsteps, hstop⟩
  · simp only [ho]
    exact NodeRun.done ev hsteps
  · have hx : (match (asyncSeries ((nodeTasks w nodeCount node).drop 0) tr).1 with
        | none => some Exit.uncaught
        | some error => if error then some Exit.failure else none) =
        some (exitOfStep (asyncSeries ((nodeTasks w nodeCount node).drop 0) tr).1) := by
      cases hr : (asyncSeries ((nodeTasks w nodeCount node).drop 0) tr).1 with
      | none => rfl
      | some error =>
        cases error
        · exact absurd hr ho
        · rfl
    simp only [hx, hev]
    exact NodeRun.stop k pre last _ hsteps hstop

/-- The node loop refines `LoopRun`. -/
theorem asyncEachSeries_loopRun (w : World) (nodeCount : JSVal) :
    ∀ (ns : List Node) (tr : Trace),
      ∃ ev, LoopRun nodeCount ns ev (asyncEachSeries (eachNode w nodeCount) ns tr).1 ∧
        (asyncEachSeries (eachNode w nodeCount) ns tr).2 = tr ++ ev
  | [], tr => ⟨[], LoopRun.nil, by simp [asyncEachSeries]⟩
  | node :: rest, tr => by
    obtain ⟨ev, hrun, htr⟩ := eachNode_nodeRun w nodeCount node tr
    cases hres : (eachNode w nodeCount node tr).1 with
    | some e =>
      have h1 : asyncEachSeries (eachNode w nodeCount) (node :: rest) tr =
          (some e, (eachNode w nodeCount node tr).2) := by
        rw [asyncEachSeries]
        split
        · rename_i e' tr1 heq
          rw [heq] at hres
          simp only [Option.some.injEq] at hres
          simp [heq, hres]
        · rename_i tr1 heq
          rw [heq] at hres
          cases hres
      rw [h1]
      rw [hres] at hrun
      exact ⟨ev, LoopRun.stop node rest ev e hrun, htr⟩
    | none =>
      have h1 : asyncEachSeries (eachNode w nodeCount) (node :: rest) tr =
          asyncEachSeries (eachNode w nodeCount) rest (eachNode w nodeCount node tr).2 := by
        rw [asyncEachSeries]
        split
        · rename_i e' tr1 heq
          rw [heq] at hres
          cases hres
        · rename_i tr1 heq
          simp [heq]
      rw [h1, htr]
      rw [hres] at hrun
      obtain ⟨ext, hloop, htr2⟩ := asyncEachSeries_loopRun w nodeCount rest (tr ++ ev)
      exact ⟨ev ++ ext, LoopRun.next node rest ev ext _ hrun hloop, by simp [htr2]⟩

theorem clusterNodeURLs_trace (w : World) (url : String) (tr : Trace) :
    (clusterNodeURLs w url tr).2 = tr ++ [nodesEvent url (w.nodes tr.length)] := by
  unfold clusterNodeURLs
  simp only
  split
  · rfl
  · split <;> rfl

theorem clusterNodeURLs_ok (w : World) (url : String) (tr : Trace) (ns : List Node)
    (h : (clusterNodeURLs w url tr).1 = some ⟨false, some ns⟩) :
    (w.nodes tr.length).error = false ∧ (w.nodes tr.length).statusCode = 200 ∧
      nodesLoop (w.nodes tr.length).nodes [] = some ns := by
  unfold clusterNodeURLs at h
  simp only at h
  split at h
  · simp at h
  · rename_i hc
    have hc' : (w.nodes tr.length).error = false ∧ (w.nodes tr.length).statusCode = 200 := by
      simpa using hc
    split at h
    · cases h
    · rename_i nodes hn
      simp only [Option.some.injEq, Callback.mk.injEq, true_and] at h
      exact ⟨hc'.1, hc'.2, by rw [hn, h]⟩

theorem clusterState_spec (w : World) (url : String) (tr : Trace) :
    (clusterState w url tr).2 = tr ++ [healthEvent url (w.http tr.length)] ∧
      (∀ v, (clusterState w url tr).1.data.getProp "number_of_nodes" = some v →
        (w.http tr.length).error = false ∧ (w.http tr.length).statusCode = 200 ∧
          (w.http tr.length).body.getProp "number_of_nodes" = some v) := by
  unfold clusterState
  simp only
  split
  · exact ⟨rfl, by intro v hv; simp [Body.getProp] at hv⟩
  · rename_i hc
    have hc' : (w.http tr.length).error = false ∧ (w.http tr.length).statusCode = 200 := by
      simpa using hc
    exact ⟨rfl, fun v hv => ⟨hc'.1, hc'.2, hv⟩⟩

/-- The script refines `MainRun`. -/
theorem main_mainRun (w : World) : MainRun (main w).2 (main w).1 := by
  obtain ⟨p, hrun, htr⟩ := waitForState_waitRun w clusterUrl 3 "status" (JSVal.str "green") []
  simp only [List.nil_append] at htr
  generalize hr : main w = r
  unfold main at hr
  split at hr
  · rename_i tr1 heq
    subst hr
    rw [heq] at hrun htr
    simp only at htr hrun
    subst htr
    exact MainRun.precheck _ none hrun (by rintro ⟨cb, h, _⟩; cases h)
  · rename_i cb1 tr1 heq
    rw [heq] at hrun htr
    simp only at htr hrun
    subst htr
    split at hr
    · rename_i he1
      subst hr
      refine MainRun.precheck _ (some cb1) hrun ?_
      rintro ⟨cb, h, h'⟩
      cases h
      simp [he1] at h'
    · rename_i he1
      have hs : Succeeded (some cb1) := ⟨cb1, rfl, by simpa using he1⟩
      have hntr := clusterNodeURLs_trace w clusterUrl tr1
      split at hr
      · rename_i tr2 heq2
        subst hr
        rw [heq2] at hntr
        simp only at hntr
        subst hntr
        exact MainRun.discovery _ _ _ Exit.uncaught hrun hs (by decide)
      · rename_i cb2 tr2 heq2
        have hn : (clusterNodeURLs w clusterUrl tr1).1 = some cb2 := by rw [heq2]
        rw [heq2] at hntr
        simp only at hntr
        subst hntr
        simp only at hr
        split at hr
        · subst hr
          exact MainRun.discovery _ _ _ Exit.failure hrun hs (by decide)
        · rename_i he2
          obtain ⟨hbtr, hbv⟩ := clusterState_spec w clusterUrl
            (tr1 ++ [nodesEvent clusterUrl (w.nodes tr1.length)])
          have hbtr' : (clusterState w clusterUrl
              (tr1 ++ [nodesEvent clusterUrl (w.nodes tr1.length)])).2 =
              tr1 ++ [nodesEvent clusterUrl (w.nodes tr1.length),
                healthEvent clusterUrl
                  (w.http (tr1 ++ [nodesEvent clusterUrl (w.nodes tr1.length)]).length)] := by
            rw [hbtr, List.append_assoc]
            rfl
          simp only [hbtr'] at hr
          split at hr
          · subst hr
            exact MainRun.baseline _ _ _ _ Exit.uncaught hrun hs (by decide)
          · rename_i nodeCount hg
            split at hr
            · subst hr
              exact MainRun.baseline _ _ _ _ Exit.failure hrun hs (by decide)
            · split at hr
              · subst hr
                exact MainRun.baseline _ _ _ _ Exit.uncaught hrun hs (by decide)
              · rename_i ns hd
                have hcb2 : cb2 = ⟨false, some ns⟩ := by
                  cases cb2
                  simp only at he2 hd
                  simp only [Bool.not_eq_true] at he2
                  simp [he2, hd]
                have hN := clusterNodeURLs_ok w clusterUrl tr1 ns (by rw [hn, hcb2])
                have hB := hbv nodeCount hg
                obtain ⟨ev, hloop, hltr⟩ := asyncEachSeries_loopRun w nodeCount ns
                  (tr1 ++ [nodesEvent clusterUrl (w.nodes tr1.length),
                    healthEvent clusterUrl
                      (w.http (tr1 ++ [nodesEvent clusterUrl (w.nodes tr1.length)]).length)])
                have hM := MainRun.loop tr1 _ _ _ ns nodeCount ev _ hrun hs hN hB hloop
                split at hr
                · rename_i e tr4 heq4
                  subst hr
                  rw [heq4] at hM hltr
                  simp only at hltr
                  rw [hltr]
                  simpa using hM
                · rename_i tr4 heq4
                  subst hr
                  rw [heq4] at hM hltr
                  simp only at hltr
                  rw [hltr]
                  simpa using hM

/-! ## Facts about the run relations -/

theorem PollRun.events_poll {nodeURL key : String} {value : JSVal} {more : Nat} {b : Backoff}
    {ext : List Event} {res : Option (Callback Body)}
    (h : PollRun nodeURL key value more b ext res) :
    ∀ e ∈ ext, (∃ r, e = healthEvent nodeURL r) ∨ (∃ ms, e = timeoutEvent ms) := by
  induction h with
  | matched more b r h => intro e he; simp at he; exact Or.inl ⟨r, he⟩
  | thrown more b r h => intro e he; simp at he; exact Or.inl ⟨r, he⟩
  | exhausted b r h =>
    intro e he
    simp only [List.mem_cons, List.mem_singleton, List.not_mem_nil, or_false] at he
    rcases he with rfl | rfl
    · exact Or.inl ⟨r, rfl⟩
    · exact Or.inr ⟨_, rfl⟩
  | again more b r h ext res rest ih =>
    intro e he
    simp only [List.mem_cons] at he
    rcases he with rfl | rfl | he
    · exact Or.inl ⟨r, rfl⟩
    · exact Or.inr ⟨_, rfl⟩
    · exact ih e he

/-- The events of a `waitForState` call: its entry, health fetches, timers. -/
theorem WaitRun.events_wait {nodeURL : String} {n : Nat} {key : String} {value : JSVal}
    {p : List Event} {res : Option (Callback Body)} (h : WaitRun nodeURL n key value p res) :
    ∀ e ∈ p, e = waitEvent nodeURL n key value ∨ (∃ r, e = healthEvent nodeURL r) ∨
      (∃ ms, e = timeoutEvent ms) := by
  obtain ⟨ext, rfl, hrun⟩ := h
  intro e he
  simp only [List.mem_cons] at he
  rcases he with rfl | he
  · exact Or.inl rfl
  · exact Or.inr (hrun.events_poll e he)

/-- Splitting `A ++ B` at an event that `A` cannot hold. -/
theorem split_right {Q : Event → Prop} {A B pre post : List Event} {e : Event}
    (h : A ++ B = pre ++ e :: post) (hA : ∀ x ∈ A, ¬ Q x) (he : Q e) :
    ∃ preB, pre = A ++ preB ∧ B = preB ++ e :: post := by
  rcases List.append_eq_append_iff.mp h with ⟨a', h1, h2⟩ | ⟨c', h1, h2⟩
  · exact ⟨a', h1, h2⟩
  · cases c' with
    | nil =>
      simp only [List.append_nil, List.nil_append] at h1 h2
      exact ⟨[], by simp [h1], by simp [h2]⟩
    | cons x c' =>
      simp only [List.cons_append, List.cons.injEq] at h2
      obtain ⟨rfl, _⟩ := h2
      exact absurd he (hA e (by simp [h1]))

/-- Splitting `A ++ B` at an event that `B` cannot hold. -/
theorem split_left {Q : Event → Prop} {A B pre post : List Event} {e : Event}
    (h : A ++ B = pre ++ e :: post) (hB : ∀ x ∈ B, ¬ Q x) (he : Q e) :
    ∃ postA, A = pre ++ e :: postA ∧ post = postA ++ B := by
  rcases List.append_eq_append_iff.mp h with ⟨a', h1, h2⟩ | ⟨c', h1, h2⟩
  · exact absurd he (hB e (by simp [h2]))
  · cases c' with
    | nil =>
      simp only [List.append_nil, List.nil_append] at h1 h2
      exact absurd he (hB e (by simp [← h2]))
    | cons x c' =>
      simp only [List.cons_append, List.cons.injEq] at h2
      obtain ⟨rfl, h2⟩ := h2
      exact ⟨c', h1, h2⟩

/-! ## A failed start ends the run -/

theorem waitEvent_not_startFailed (nodeURL : String) (n : Nat) (key : String) (value : JSVal) :
    ¬ (waitEvent nodeURL n key value).StartFailed := by
  rintro ⟨_, _, _, _, _, h, _⟩
  simp [waitEvent] at h

theorem healthEvent_not_startFailed (nodeURL : String) (r : HttpReply) :
    ¬ (healthEvent nodeURL r).StartFailed := by
  rintro ⟨_, _, _, _, _, h, _⟩
  simp [healthEvent] at h

theorem timeoutEvent_not_startFailed (ms : Nat) : ¬ (timeoutEvent ms).StartFailed := by
  rintro ⟨_, _, _, _, _, h, _⟩
  simp [timeoutEvent] at h

theorem putEvent_not_startFailed (nodeURL mode : String) (r : HttpReply) :
    ¬ (putEvent nodeURL mode r).StartFailed := by
  rintro ⟨_, _, _, _, _, h, _⟩
  simp [putEvent] at h

theorem postEvent_not_startFailed (nodeURL : String) (r : HttpReply) :
    ¬ (postEvent nodeURL r).StartFailed := by
  rintro ⟨_, _, _, _, _, h, _⟩
  simp [postEvent] at h

theorem nodesEvent_not_startFailed (url : String) (r : NodesReply) :
    ¬ (nodesEvent url r).StartFailed := by
  rintro ⟨_, _, _, _, _, h, _⟩
  simp [nodesEvent] at h

theorem sshEvent_startFailed_iff (host : JSVal) (n : Nat) (exitCode : Int) :
    (sshEvent host n exitCode).StartFailed ↔ exitCode ≠ 0 := by
  constructor
  · rintro ⟨_, _, _, _, c, h, hc⟩
    simp only [sshEvent, Event.mk.injEq, Reply.exit.injEq] at h
    rw [h.2]
    exact hc
  · intro h
    exact ⟨_, _, _, _, exitCode, rfl, h⟩

theorem WaitRun.clean_wait {nodeURL : String} {n : Nat} {key : String} {value : JSVal}
    {p : List Event} {res : Option (Callback Body)} (h : WaitRun nodeURL n key value p res) :
    ∀ e ∈ p, ¬ e.StartFailed := by
  intro e he
  rcases h.events_wait e he with rfl | ⟨r, rfl⟩ | ⟨ms, rfl⟩
  · exact waitEvent_not_startFailed _ _ _ _
  · exact healthEvent_not_startFailed _ _
  · exact timeoutEvent_not_startFailed _

theorem clean_append {Q : Event → Prop} {A B : List Event} (hA : ∀ e ∈ A, ¬ Q e)
    (hB : ∀ e ∈ B, ¬ Q e) : ∀ e ∈ A ++ B, ¬ Q e := by
  intro e he
  rcases List.mem_append.mp he with h | h
  · exact hA e h
  · exact hB e h

theorem clean_singleton {Q : Event → Prop} {x : Event} (hx : ¬ Q x) :
    ∀ e ∈ [x], ¬ Q e := by
  intro e he
  simp only [List.mem_singleton] at he
  exact he ▸ hx

/-- The successful steps of a node hold no failed start. -/
theorem NodeSteps.clean_steps {nodeCount : JSVal} {node : Node} {k : Nat} {ev : List Event}
    (h : NodeSteps nodeCount node k ev) : ∀ e ∈ ev, ¬ e.StartFailed := by
  induction h with
  | start => intro e he; cases he
  | green ev p res h hp hs ih => exact clean_append ih hp.clean_wait
  | disable ev r h ih => exact clean_append ih (clean_singleton (putEvent_not_startFailed _ _ _))
  | shutdown ev r h hr ih =>
    exact clean_append ih (clean_singleton (postEvent_not_startFailed _ _))
  | started ev h ih =>
    exact clean_append ih (clean_singleton (by rw [sshEvent_startFailed_iff]; simp))
  | rejoined ev p res h hp hs ih => exact clean_append ih hp.clean_wait
  | enable ev r h ih => exact clean_append ih (clean_singleton (putEvent_not_startFailed _ _ _))
  | settled ev p res h hp hs ih => exact clean_append ih hp.clean_wait

/-- After three steps the last two events are the disable and the shutdown. -/
theorem NodeSteps.three {nodeCount : JSVal} {node : Node} {ev : List Event}
    (h : NodeSteps nodeCount node 3 ev) :
    ∃ pre' r1 r2, ev = pre' ++ [putEvent node.http "none" r1, postEvent node.http r2] := by
  cases h with
  | shutdown ev2 r2 h2 hr =>
    cases h2 with
    | disable ev1 r1 h1 => exact ⟨ev1, r1, r2, by simp⟩

theorem startSafe_of_clean {ev : List Event} {failed : Prop}
    (h : ∀ e ∈ ev, ¬ e.StartFailed) : StartSafe ev failed := by
  intro pre e post hev he
  exact absurd he (h e (by simp [hev]))

theorem startSafe_append {A B : List Event} {failed : Prop}
    (hA : ∀ e ∈ A, ¬ e.StartFailed) (hB : StartSafe B failed) : StartSafe (A ++ B) failed := by
  intro pre e post hev he
  obtain ⟨preB, hpre, hB'⟩ := split_right hev hA he
  obtain ⟨h1, h2, pre', nodeURL, r1, r2, h3⟩ := hB preB e post hB' he
  exact ⟨h1, h2, A ++ pre', nodeURL, r1, r2, by rw [hpre, h3, List.append_assoc]⟩

theorem NodeStop.startSafe_stop {nodeCount : JSVal} {node : Node} {k : Nat} {pre last : List Event}
    {e : Exit} (hpre : NodeSteps nodeCount node k pre) (h : NodeStop nodeCount node k last e) :
    StartSafe (pre ++ last) (e = Exit.failure) := by
  cases h with
  | green p res hp hs => exact startSafe_of_clean (clean_append hpre.clean_steps hp.clean_wait)
  | disable r e he =>
    exact startSafe_of_clean
      (clean_append hpre.clean_steps (clean_singleton (putEvent_not_startFailed _ _ _)))
  | shutdown r hr =>
    exact startSafe_of_clean
      (clean_append hpre.clean_steps (clean_singleton (postEvent_not_startFailed _ _)))
  | start exitCode hc =>
    intro pre0 x post hev hx
    obtain ⟨preB, hp, hB⟩ := split_right hev hpre.clean_steps hx
    cases preB with
    | nil =>
      simp only [List.nil_append, List.cons.injEq] at hB
      obtain ⟨pre', r1, r2, h3⟩ := hpre.three
      refine ⟨hB.2.symm, rfl, pre', node.http, r1, r2, ?_⟩
      rw [hp, List.append_nil, h3]
    | cons y preB =>
      simp only [List.cons_append, List.cons.injEq] at hB
      exact absurd hB.2 (by simp)
  | rejoin p res hp hs => exact startSafe_of_clean (clean_append hpre.clean_steps hp.clean_wait)
  | enable r e he =>
    exact startSafe_of_clean
      (clean_append hpre.clean_steps (clean_singleton (putEvent_not_startFailed _ _ _)))
  | lastPoll p res hp hs => exact startSafe_of_clean (clean_append hpre.clean_steps hp.clean_wait)

theorem LoopRun.startSafe_loop {nodeCount : JSVal} {ns : List Node} {ev : List Event}
    {res : Option Exit} (h : LoopRun nodeCount ns ev res) :
    StartSafe ev (res = some Exit.failure) := by
  induction h with
  | nil => exact startSafe_of_clean (by intro e he; cases he)
  | stop node rest ev e h =>
    cases h with
    | stop k pre last e hsteps hstop =>
      intro pre0 x post hev hx
      obtain ⟨h1, h2, h3⟩ := hstop.startSafe_stop hsteps pre0 x post hev hx
      exact ⟨h1, by rw [h2], h3⟩
  | next node rest ev ext res h hrest ih =>
    cases h with
    | done ev hsteps => exact startSafe_append hsteps.clean_steps ih

theorem MainRun.startSafe_run {ev : List Event} {e : Exit} (h : MainRun ev e) :
    StartSafe ev (e = Exit.failure) := by
  cases h with
  | precheck p res hp hs => exact startSafe_of_clean hp.clean_wait
  | discovery p res rN e hp hs he =>
    exact startSafe_of_clean
      (clean_append hp.clean_wait (clean_singleton (nodesEvent_not_startFailed _ _)))
  | baseline p res rN rb e hp hs he =>
    refine startSafe_of_clean (clean_append hp.clean_wait ?_)
    intro x hx
    simp only [List.mem_cons, List.mem_singleton, List.not_mem_nil, or_false] at hx
    rcases hx with rfl | rfl
    · exact nodesEvent_not_startFailed _ _
    · exact healthEvent_not_startFailed _ _
  | loop p res rN rb ns nodeCount ev lres hp hs hN hb hl =>
    have h1 : StartSafe ([nodesEvent clusterUrl rN, healthEvent clusterUrl rb] ++ ev)
        (lres = some Exit.failure) := by
      refine startSafe_append ?_ hl.startSafe_loop
      intro x hx
      simp only [List.mem_cons, List.mem_singleton, List.not_mem_nil, or_false] at hx
      rcases hx with rfl | rfl
      · exact nodesEvent_not_startFailed _ _
      · exact healthEvent_not_startFailed _ _
    have h2 := startSafe_append hp.clean_wait h1
    intro pre x post hev hx
    obtain ⟨h3, h4, h5⟩ := h2 pre x post (by simpa using hev) hx
    exact ⟨h3, by rw [h4]; rfl, h5⟩

/-! ## Claim on the start command -/

/-- C8: in every run, a remote start command that returns a non-zero exit
status is the last event of the run (no second start, no rejoin poll, no
allocation re-enable, no operation on a later node follows), the process ends by
`process.exit(1)`, and the two events before the failed start are the disable
call and the shutdown call of one node, so allocation stays disabled. -/
theorem failed_start_aborts (w : World) (pre post : List Event) (e : Event)
    (h : (main w).2 = pre ++ e :: post) (he : e.StartFailed) :
    post = [] ∧ (main w).1 = Exit.failure ∧
      ∃ pre' nodeURL r1 r2, pre = pre' ++ [putEvent nodeURL "none" r1, postEvent nodeURL r2] :=
  (main_mainRun w).startSafe_run pre e post h he

/-- C8, witness: the first start command exits with status 1 in a cluster where
everything else succeeds; it is event number 8 of the run. -/
theorem failed_start_aborts_witness :
    (main startFailsWorld).2 = (main startFailsWorld).2.take 8 ++
        sshEvent (JSVal.str "hostA") 10 1 :: [] ∧
      (sshEvent (JSVal.str "hostA") 10 1).StartFailed ∧
      ([] : List Event) = [] ∧ (main startFailsWorld).1 = Exit.failure ∧
      ∃ pre' nodeURL r1 r2, (main startFailsWorld).2.take 8 =
        pre' ++ [putEvent nodeURL "none" r1, postEvent nodeURL r2] :=
  ⟨by decide, (sshEvent_startFailed_iff _ _ _).mpr (by decide),
    failed_start_aborts startFailsWorld ((main startFailsWorld).2.take 8) []
      (sshEvent (JSVal.str "hostA") 10 1) (by decide)
      ((sshEvent_startFailed_iff _ _ _).mpr (by decide))⟩

/-! ## Allocation calls are paired around a restart -/

theorem guarded_of_clean {Q : Event → Prop} {R : List Event → Event → Prop} {ev : List Event}
    (h : ∀ e ∈ ev, ¬ Q e) : Guarded Q R ev := by
  intro pre e post hev he
  exact absurd he (h e (by simp [hev]))

theorem guarded_append {Q : Event → Prop} {R : List Event → Event → Prop} {A B : List Event}
    (hR : ∀ A pre e, R pre e → R (A ++ pre) e)
    (hA : Guarded Q R A) (hB : Guarded Q R B) : Guarded Q R (A ++ B) := by
  intro pre e post hev he
  rcases List.append_eq_append_iff.mp hev with ⟨a', h1, h2⟩ | ⟨c', h1, h2⟩
  · rw [h1]
    exact hR A a' e (hB a' e post h2 he)
  · cases c' with
    | nil =>
      simp only [List.append_nil, List.nil_append] at h1 h2
      have := hR A [] e (hB [] e post (by simp [h2]) he)
      simpa [h1] using this
    | cons x c' =>
      simp only [List.cons_append, List.cons.injEq] at h2
      obtain ⟨rfl, _⟩ := h2
      exact hA pre e c' h1 he

theorem guarded_snoc {Q : Event → Prop} {R : List Event → Event → Prop} {A : List Event}
    {x : Event} (hA : Guarded Q R A) (hx : R A x) : Guarded Q R (A ++ [x]) := by
  intro pre e post hev he
  rcases List.append_eq_append_iff.mp hev with ⟨a', h1, h2⟩ | ⟨c', h1, h2⟩
  · cases a' with
    | nil =>
      simp only [List.nil_append, List.cons.injEq] at h2
      simp only [List.append_nil] at h1
      rw [h1, ← h2.1]
      exact hx
    | cons y a' =>
      simp only [List.cons_append, List.cons.injEq] at h2
      exact absurd h2.2 (by simp)
  · cases c' with
    | nil =>
      simp only [List.append_nil, List.nil_append, List.cons.injEq] at h1 h2
      rw [← h1, h2.1]
      exact hx
    | cons y c' =>
      simp only [List.cons_append, List.cons.injEq] at h2
      obtain ⟨rfl, _⟩ := h2
      exact hA pre e c' h1 he

theorem disabledBefore_mono (A pre : List Event) (e : Event) (h : DisabledBefore pre e) :
    DisabledBefore (A ++ pre) e := by
  obtain ⟨pre', nodeURL, r1, r2, h1, h2⟩ := h
  exact ⟨A ++ pre', nodeURL, r1, r2, by rw [h1, List.append_assoc], h2⟩

theorem rejoinedBefore_mono (A pre : List Event) (e : Event) (h : RejoinedBefore pre e) :
    RejoinedBefore (A ++ pre) e := by
  obtain ⟨pre', nodeURL, nodeCount, ext, r, r', h1, h2, h3, h4⟩ := h
  exact ⟨A ++ pre', nodeURL, nodeCount, ext, r, r', by rw [h1]; simp, h2, h3, h4⟩

theorem WaitRun.no_shutdown {nodeURL : String} {n : Nat} {key : String} {value : JSVal}
    {p : List Event} {res : Option (Callback Body)} (h : WaitRun nodeURL n key value p res) :
    ∀ e ∈ p, ¬ e.IsShutdown := by
  intro e he
  rcases h.events_wait e he with rfl | ⟨r, rfl⟩ | ⟨ms, rfl⟩ <;> rintro ⟨uri, hu⟩ <;>
    simp [waitEvent, healthEvent, timeoutEvent] at hu

theorem WaitRun.no_put {nodeURL : String} {n : Nat} {key : String} {value : JSVal}
    {p : List Event} {res : Option (Callback Body)} (h : WaitRun nodeURL n key value p res) :
    ∀ e ∈ p, e.putOf = none := by
  intro e he
  rcases h.events_wait e he with rfl | ⟨r, rfl⟩ | ⟨ms, rfl⟩ <;> rfl

theorem not_isEnable_of_putOf {e : Event} (h : e.putOf = none) : ¬ e.isEnable = true := by
  unfold Event.putOf at h
  unfold Event.isEnable
  split <;> simp_all

theorem not_isDisable_of_putOf {e : Event} (h : e.putOf = none) : ¬ e.isDisable = true := by
  unfold Event.putOf at h
  unfold Event.isDisable
  split <;> simp_all

theorem WaitRun.no_enable {nodeURL : String} {n : Nat} {key : String} {value : JSVal}
    {p : List Event} {res : Option (Callback Body)} (h : WaitRun nodeURL n key value p res) :
    ∀ e ∈ p, ¬ e.isEnable = true :=
  fun e he => not_isEnable_of_putOf (h.no_put e he)

/-- A successful `waitForState` call ends with a matching health fetch. -/
theorem WaitRun.succeeded_shape {nodeURL : String} {n : Nat} {key : String} {value : JSVal}
    {p : List Event} {res : Option (Callback Body)} (h : WaitRun nodeURL n key value p res)
    (hs : Succeeded res) :
    ∃ ext r, p = waitEvent nodeURL n key value :: ext ++ [healthEvent nodeURL r] ∧
      r.Matches key value ∧
      (∀ x ∈ ext, (∃ r0, x = healthEvent nodeURL r0) ∨ ∃ ms, x = timeoutEvent ms) := by
  obtain ⟨ext, rfl, hrun⟩ := h
  obtain ⟨cb, hcb, he⟩ := hs
  obtain ⟨pre, r, h1, h2, _, _, _⟩ := hrun.success cb hcb he
  refine ⟨pre, r, by rw [h1]; simp, h2, ?_⟩
  intro x hx
  exact hrun.events_poll x (by rw [h1]; simp [hx])

theorem NodeSteps.two {nodeCount : JSVal} {node : Node} {ev : List Event}
    (h : NodeSteps nodeCount node 2 ev) :
    ∃ pre' r1, ev = pre' ++ [putEvent node.http "none" r1] := by
  cases h with
  | disable ev1 r1 h1 => exact ⟨ev1, r1, rfl⟩

theorem NodeSteps.five {nodeCount : JSVal} {node : Node} {ev : List Event} (r' : HttpReply)
    (h : NodeSteps nodeCount node 5 ev) :
    RejoinedBefore ev (putEvent node.http "all" r') := by
  cases h with
  | rejoined ev4 p res h4 hp hs =>
    obtain ⟨ext, r, h1, h2, h3⟩ := hp.succeeded_shape hs
    exact ⟨ev4, node.http, nodeCount, ext, r, r', by rw [h1]; simp, h2, h3, rfl⟩

theorem putEvent_not_shutdown (nodeURL mode : String) (r : HttpReply) :
    ¬ (putEvent nodeURL mode r).IsShutdown := by
  rintro ⟨uri, hu⟩
  simp [putEvent] at hu

theorem sshEvent_not_shutdown (host : JSVal) (n : Nat) (c : Int) :
    ¬ (sshEvent host n c).IsShutdown := by
  rintro ⟨uri, hu⟩
  simp [sshEvent] at hu

/-- Within the successful steps of a node every shutdown comes right after the
node's disable call. -/
theorem NodeSteps.shutdown_guarded_steps {nodeCount : JSVal} {node : Node} {k : Nat}
    {ev : List Event} (h : NodeSteps nodeCount node k ev) :
    Guarded Event.IsShutdown DisabledBefore ev := by
  induction h with
  | start => exact guarded_of_clean (by intro e he; cases he)
  | green ev p res h hp hs ih =>
    exact guarded_append disabledBefore_mono ih (guarded_of_clean hp.no_shutdown)
  | disable ev r h ih =>
    exact guarded_append disabledBefore_mono ih
      (guarded_of_clean (clean_singleton (putEvent_not_shutdown _ _ _)))
  | shutdown ev r h hr ih =>
    obtain ⟨pre', r1, h2⟩ := h.two
    exact guarded_snoc ih ⟨pre', node.http, r1, r, h2, rfl⟩
  | started ev h ih =>
    exact guarded_append disabledBefore_mono ih
      (guarded_of_clean (clean_singleton (sshEvent_not_shutdown _ _ _)))
  | rejoined ev p res h hp hs ih =>
    exact guarded_append disabledBefore_mono ih (guarded_of_clean hp.no_shutdown)
  | enable ev r h ih =>
    exact guarded_append disabledBefore_mono ih
      (guarded_of_clean (clean_singleton (putEvent_not_shutdown _ _ _)))
  | settled ev p res h hp hs ih =>
    exact guarded_append disabledBefore_mono ih (guarded_of_clean hp.no_shutdown)

theorem NodeStop.shutdown_guarded_stop {nodeCount : JSVal} {node : Node} {k : Nat}
    {pre last : List Event} {e : Exit} (hpre : NodeSteps nodeCount node k pre)
    (h : NodeStop nodeCount node k last e) :
    Guarded Event.IsShutdown DisabledBefore (pre ++ last) := by
  cases h with
  | green p res hp hs =>
    exact guarded_append disabledBefore_mono hpre.shutdown_guarded_steps
      (guarded_of_clean hp.no_shutdown)
  | disable r e he =>
    exact guarded_append disabledBefore_mono hpre.shutdown_guarded_steps
      (guarded_of_clean (clean_singleton (putEvent_not_shutdown _ _ _)))
  | shutdown r hr =>
    obtain ⟨pre', r1, h2⟩ := hpre.two
    exact guarded_snoc hpre.shutdown_guarded_steps ⟨pre', node.http, r1, r, h2, rfl⟩
  | start exitCode hc =>
    exact guarded_append disabledBefore_mono hpre.shutdown_guarded_steps
      (guarded_of_clean (clean_singleton (sshEvent_not_shutdown _ _ _)))
  | rejoin p res hp hs =>
    exact guarded_append disabledBefore_mono hpre.shutdown_guarded_steps
      (guarded_of_clean hp.no_shutdown)
  | enable r e he =>
    exact guarded_append disabledBefore_mono hpre.shutdown_guarded_steps
      (guarded_of_clean (clean_singleton (putEvent_not_shutdown _ _ _)))
  | lastPoll p res hp hs =>
    exact guarded_append disabledBefore_mono hpre.shutdown_guarded_steps
      (guarded_of_clean hp.no_shutdown)

theorem postEvent_not_enable (nodeURL : String) (r : HttpReply) :
    ¬ (postEvent nodeURL r).isEnable = true := by
  simp [postEvent, Event.isEnable]

theorem sshEvent_not_enable (host : JSVal) (n : Nat) (c : Int) :
    ¬ (sshEvent host n c).isEnable = true := by
  simp [sshEvent, Event.isEnable]

theorem putNone_not_enable (nodeURL : String) (r : HttpReply) :
    ¬ (putEvent nodeURL "none" r).isEnable = true := by
  simp [putEvent, Event.isEnable]

/-- Within the successful steps of a node every enable call comes right after
the node's successful rejoin poll. -/
theorem NodeSteps.enable_guarded_steps {nodeCount : JSVal} {node : Node} {k : Nat}
    {ev : List Event} (h : NodeSteps nodeCount node k ev) :
    Guarded (fun e => e.isEnable = true) RejoinedBefore ev := by
  induction h with
  | start => exact guarded_of_clean (by intro e he; cases he)
  | green ev p res h hp hs ih =>
    exact guarded_append rejoinedBefore_mono ih (guarded_of_clean hp.no_enable)
  | disable ev r h ih =>
    exact guarded_append rejoinedBefore_mono ih
      (guarded_of_clean (clean_singleton (putNone_not_enable _ _)))
  | shutdown ev r h hr ih =>
    exact guarded_append rejoinedBefore_mono ih
      (guarded_of_clean (clean_singleton (postEvent_not_enable _ _)))
  | started ev h ih =>
    exact guarded_append rejoinedBefore_mono ih
      (guarded_of_clean (clean_singleton (sshEvent_not_enable _ _ _)))
  | rejoined ev p res h hp hs ih =>
    exact guarded_append rejoinedBefore_mono ih (guarded_of_clean hp.no_enable)
  | enable ev r h ih => exact guarded_snoc ih (h.five r)
  | settled ev p res h hp hs ih =>
    exact guarded_append rejoinedBefore_mono ih (guarded_of_clean hp.no_enable)

theorem NodeStop.enable_guarded_stop {nodeCount : JSVal} {node : Node} {k : Nat}
    {pre last : List Event} {e : Exit} (hpre : NodeSteps nodeCount node k pre)
    (h : NodeStop nodeCount node k last e) :
    Guarded (fun e => e.isEnable = true) RejoinedBefore (pre ++ last) := by
  cases h with
  | green p res hp hs =>
    exact guarded_append rejoinedBefore_mono hpre.enable_guarded_steps (guarded_of_clean hp.no_enable)
  | disable r e he =>
    exact guarded_append rejoinedBefore_mono hpre.enable_guarded_steps
      (guarded_of_clean (clean_singleton (putNone_not_enable _ _)))
  | shutdown r hr =>
    exact guarded_append rejoinedBefore_mono hpre.enable_guarded_steps
      (guarded_of_clean (clean_singleton (postEvent_not_enable _ _)))
  | start exitCode hc =>
    exact guarded_append rejoinedBefore_mono hpre.enable_guarded_steps
      (guarded_of_clean (clean_singleton (sshEvent_not_enable _ _ _)))
  | rejoin p res hp hs =>
    exact guarded_append rejoinedBefore_mono hpre.enable_guarded_steps (guarded_of_clean hp.no_enable)
  | enable r e he => exact guarded_snoc hpre.enable_guarded_steps (hpre.five r)
  | lastPoll p res hp hs =>
    exact guarded_append rejoinedBefore_mono hpre.enable_guarded_steps (guarded_of_clean hp.no_enable)

/-- The two guards hold along the node loop. -/
theorem LoopRun.guarded_loop {nodeCount : JSVal} {ns : List Node} {ev : List Event}
    {res : Option Exit} (h : LoopRun nodeCount ns ev res) :
    Guarded Event.IsShutdown DisabledBefore ev ∧
      Guarded (fun e => e.isEnable = true) RejoinedBefore ev := by
  induction h with
  | nil =>
    exact ⟨guarded_of_clean (by intro e he; cases he),
      guarded_of_clean (by intro e he; cases he)⟩
  | stop node rest ev e h =>
    cases h with
    | stop k pre last e hsteps hstop =>
      exact ⟨hstop.shutdown_guarded_stop hsteps, hstop.enable_guarded_stop hsteps⟩
  | next node rest ev ext res h hrest ih =>
    cases h with
    | done ev hsteps =>
      exact ⟨guarded_append disabledBefore_mono hsteps.shutdown_guarded_steps ih.1,
        guarded_append rejoinedBefore_mono hsteps.enable_guarded_steps ih.2⟩

theorem nodesEvent_putOf (url : String) (r : NodesReply) : (nodesEvent url r).putOf = none := rfl

theorem healthEvent_putOf (url : String) (r : HttpReply) : (healthEvent url r).putOf = none := rfl

theorem not_shutdown_of_get {e : Event} {uri : String} (h : e.op = Op.get uri) :
    ¬ e.IsShutdown := by
  rintro ⟨u, hu⟩
  rw [h] at hu
  cases hu

/-- The events before the node loop hold no shutdown and no allocation call. -/
theorem prelude_quiet {p : List Event} {res : Option (Callback Body)} (rN : NodesReply)
    (rb : HttpReply) (hp : WaitRun clusterUrl 3 "status" (JSVal.str "green") p res) :
    (∀ e ∈ p ++ [nodesEvent clusterUrl rN, healthEvent clusterUrl rb], ¬ e.IsShutdown) ∧
      (∀ e ∈ p ++ [nodesEvent clusterUrl rN, healthEvent clusterUrl rb], e.putOf = none) := by
  refine ⟨?_, ?_⟩
  · intro e he
    rcases List.mem_append.mp he with h | h
    · exact hp.no_shutdown e h
    · simp only [List.mem_cons, List.mem_singleton, List.not_mem_nil, or_false] at h
      rcases h with rfl | rfl
      · exact not_shutdown_of_get rfl
      · exact not_shutdown_of_get rfl
  · intro e he
    rcases List.mem_append.mp he with h | h
    · exact hp.no_put e h
    · simp only [List.mem_cons, List.mem_singleton, List.not_mem_nil, or_false] at h
      rcases h with rfl | rfl <;> rfl

theorem MainRun.guarded_run {ev : List Event} {e : Exit} (h : MainRun ev e) :
    Guarded Event.IsShutdown DisabledBefore ev ∧
      Guarded (fun e => e.isEnable = true) RejoinedBefore ev := by
  cases h with
  | precheck p res hp hs =>
    exact ⟨guarded_of_clean hp.no_shutdown, guarded_of_clean hp.no_enable⟩
  | discovery p res rN e hp hs he =>
    have hq := prelude_quiet rN ⟨false, 0, Body.undefined⟩ hp
    refine ⟨guarded_of_clean ?_, guarded_of_clean ?_⟩
    · intro x hx
      exact hq.1 x (by
        rcases List.mem_append.mp hx with h | h
        · exact List.mem_append_left _ h
        · exact List.mem_append_right _ (by simp at h; simp [h]))
    · intro x hx
      exact not_isEnable_of_putOf (hq.2 x (by
        rcases List.mem_append.mp hx with h | h
        · exact List.mem_append_left _ h
        · exact List.mem_append_right _ (by simp at h; simp [h])))
  | baseline p res rN rb e hp hs he =>
    have hq := prelude_quiet rN rb hp
    exact ⟨guarded_of_clean hq.1,
      guarded_of_clean (fun x hx => not_isEnable_of_putOf (hq.2 x hx))⟩
  | loop p res rN rb ns nodeCount ev lres hp hs hN hb hl =>
    have hq := prelude_quiet rN rb hp
    have heq : p ++ nodesEvent clusterUrl rN :: healthEvent clusterUrl rb :: ev =
        (p ++ [nodesEvent clusterUrl rN, healthEvent clusterUrl rb]) ++ ev := by simp
    rw [heq]
    exact ⟨guarded_append disabledBefore_mono (guarded_of_clean hq.1) hl.guarded_loop.1,
      guarded_append rejoinedBefore_mono
        (guarded_of_clean (fun x hx => not_isEnable_of_putOf (hq.2 x hx))) hl.guarded_loop.2⟩

theorem prefix_append_cases {p A B : List Event} (h : p <+: A ++ B) :
    p <+: A ∨ ∃ q, p = A ++ q ∧ q <+: B := by
  obtain ⟨t, ht⟩ := h
  rcases List.append_eq_append_iff.mp ht with ⟨a', h1, h2⟩ | ⟨c', h1, h2⟩
  · exact Or.inl ⟨a', h1.symm⟩
  · exact Or.inr ⟨c', h1, ⟨t, h2.symm⟩⟩

theorem balanced_append {a b c : Nat} {A B : List Event} (hA : Balanced a A b)
    (hB : Balanced b B c) : Balanced a (A ++ B) c := by
  obtain ⟨hA1, hA2⟩ := hA
  obtain ⟨hB1, hB2⟩ := hB
  refine ⟨?_, ?_⟩
  · intro p hp
    rcases prefix_append_cases hp with h | ⟨q, rfl, hq⟩
    · exact hA1 p h
    · have := hB1 q hq
      simp only [List.countP_append]
      omega
  · simp only [List.countP_append]
    omega

theorem countP_quiet {ev : List Event} (h : ∀ e ∈ ev, e.putOf = none) :
    ev.countP Event.isEnable = 0 ∧ ev.countP Event.isDisable = 0 := by
  refine ⟨?_, ?_⟩
  · rw [List.countP_eq_zero]
    exact fun e he => not_isEnable_of_putOf (h e he)
  · rw [List.countP_eq_zero]
    exact fun e he => not_isDisable_of_putOf (h e he)

theorem balanced_quiet {d : Nat} {ev : List Event} (h : ∀ e ∈ ev, e.putOf = none)
    (hd : d ≤ 1) : Balanced d ev d := by
  refine ⟨?_, ?_⟩
  · intro p hp
    have hq := countP_quiet (fun e he => h e (hp.subset he))
    omega
  · have hq := countP_quiet h
    omega

theorem balanced_disable (nodeURL : String) (r : HttpReply) :
    Balanced 0 [putEvent nodeURL "none" r] 1 := by
  refine ⟨?_, by simp [putEvent, Event.isDisable, Event.isEnable]⟩
  intro p hp
  rcases List.prefix_cons_iff.mp hp with rfl | ⟨t, rfl, ht⟩
  · simp
  · have : t = [] := List.prefix_nil.mp ht
    subst this
    simp [putEvent, Event.isDisable, Event.isEnable]

theorem balanced_enable (nodeURL : String) (r : HttpReply) :
    Balanced 1 [putEvent nodeURL "all" r] 0 := by
  refine ⟨?_, by simp [putEvent, Event.isDisable, Event.isEnable]⟩
  intro p hp
  rcases List.prefix_cons_iff.mp hp with rfl | ⟨t, rfl, ht⟩
  · simp
  · have : t = [] := List.prefix_nil.mp ht
    subst this
    simp [putEvent, Event.isDisable, Event.isEnable]

theorem quiet_singleton {x : Event} (hx : x.putOf = none) : ∀ e ∈ [x], e.putOf = none := by
  intro e he
  simp only [List.mem_singleton] at he
  exact he ▸ hx

/-- After `k` successful steps of a node, `outstanding k` disable calls are
outstanding, and never more than one was on the way. -/
theorem NodeSteps.balanced_steps {nodeCount : JSVal} {node : Node} {k : Nat} {ev : List Event}
    (h : NodeSteps nodeCount node k ev) : Balanced 0 ev (outstanding k) := by
  induction h with
  | start => exact balanced_quiet (by intro e he; cases he) (by decide)
  | green ev p res h hp hs ih => exact balanced_append ih (balanced_quiet hp.no_put (by decide))
  | disable ev r h ih => exact balanced_append ih (balanced_disable _ _)
  | shutdown ev r h hr ih =>
    exact balanced_append ih (balanced_quiet (quiet_singleton rfl) (by decide))
  | started ev h ih =>
    exact balanced_append ih (balanced_quiet (quiet_singleton rfl) (by decide))
  | rejoined ev p res h hp hs ih =>
    exact balanced_append ih (balanced_quiet hp.no_put (by decide))
  | enable ev r h ih => exact balanced_append ih (balanced_enable _ _)
  | settled ev p res h hp hs ih =>
    exact balanced_append ih (balanced_quiet hp.no_put (by decide))

theorem NodeStop.balanced_stop {nodeCount : JSVal} {node : Node} {k : Nat} {last : List Event}
    {e : Exit} (h : NodeStop nodeCount node k last e) :
    ∃ d, Balanced (outstanding k) last d := by
  cases h with
  | green p res hp hs => exact ⟨_, balanced_quiet hp.no_put (by decide)⟩
  | disable r e he => exact ⟨_, balanced_disable _ _⟩
  | shutdown r hr => exact ⟨_, balanced_quiet (quiet_singleton rfl) (by decide)⟩
  | start exitCode hc => exact ⟨_, balanced_quiet (quiet_singleton rfl) (by decide)⟩
  | rejoin p res hp hs => exact ⟨_, balanced_quiet hp.no_put (by decide)⟩
  | enable r e he => exact ⟨_, balanced_enable _ _⟩
  | lastPoll p res hp hs => exact ⟨_, balanced_quiet hp.no_put (by decide)⟩

theorem NodeStop.exit_ne_success_stop {nodeCount : JSVal} {node : Node} {k : Nat}
    {last : List Event} {e : Exit} (h : NodeStop nodeCount node k last e) :
    e ≠ Exit.success := by
  cases h with
  | green p res hp hs => exact exitOfStep_ne_success _
  | disable r e he => exact he
  | shutdown r hr => decide
  | start exitCode hc => decide
  | rejoin p res hp hs => exact exitOfStep_ne_success _
  | enable r e he => exact he
  | lastPoll p res hp hs => exact exitOfStep_ne_success _

theorem LoopRun.balanced_loop {nodeCount : JSVal} {ns : List Node} {ev : List Event}
    {res : Option Exit} (h : LoopRun nodeCount ns ev res) :
    ∃ d, Balanced 0 ev d ∧ (res = none → d = 0) := by
  induction h with
  | nil => exact ⟨0, balanced_quiet (by intro e he; cases he) (by decide), fun _ => rfl⟩
  | stop node rest ev e h =>
    cases h with
    | stop k pre last e hsteps hstop =>
      obtain ⟨d, hd⟩ := hstop.balanced_stop
      exact ⟨d, balanced_append hsteps.balanced_steps hd, by intro h; cases h⟩
  | next node rest ev ext res h hrest ih =>
    cases h with
    | done ev hsteps =>
      obtain ⟨d, hd, hres⟩ := ih
      exact ⟨d, balanced_append hsteps.balanced_steps hd, hres⟩

theorem LoopRun.exit_ne_success_loop {nodeCount : JSVal} {ns : List Node} {ev : List Event}
    {res : Option Exit} (h : LoopRun nodeCount ns ev res) :
    ∀ e, res = some e → e ≠ Exit.success := by
  induction h with
  | nil => intro e he; cases he
  | stop node rest ev e h =>
    cases h with
    | stop k pre last e hsteps hstop =>
      intro e' he'
      cases he'
      exact hstop.exit_ne_success_stop
  | next node rest ev ext res h hrest ih => exact ih

/-- A run that ends with success went through the node loop, all nodes done. -/
theorem MainRun.success_inv {ev : List Event} {e : Exit} (h : MainRun ev e)
    (he : e = Exit.success) :
    ∃ p res rN rb ns nodeCount loopEv,
      ev = p ++ nodesEvent clusterUrl rN :: healthEvent clusterUrl rb :: loopEv ∧
      WaitRun clusterUrl 3 "status" (JSVal.str "green") p res ∧ Succeeded res ∧
      (rN.error = false ∧ rN.statusCode = 200 ∧ nodesLoop rN.nodes [] = some ns) ∧
      (rb.error = false ∧ rb.statusCode = 200 ∧
        rb.body.getProp "number_of_nodes" = some nodeCount) ∧
      LoopRun nodeCount ns loopEv none := by
  cases h with
  | precheck p res hp hs => exact absurd he (exitOfStep_ne_success _)
  | discovery p res rN e hp hs hne => exact absurd he hne
  | baseline p res rN rb e hp hs hne => exact absurd he hne
  | loop p res rN rb ns nodeCount ev lres hp hs hN hb hl =>
    cases lres with
    | none => exact ⟨p, res, rN, rb, ns, nodeCount, ev, rfl, hp, hs, hN, hb, hl⟩
    | some e' => exact absurd he (hl.exit_ne_success_loop e' rfl)

theorem MainRun.balanced_run {ev : List Event} {e : Exit} (h : MainRun ev e) :
    ∃ d, Balanced 0 ev d ∧ (e = Exit.success → d = 0) := by
  cases h with
  | precheck p res hp hs =>
    exact ⟨0, balanced_quiet hp.no_put (by decide),fun _ => rfl⟩
  | discovery p res rN e hp hs he =>
    exact ⟨0, balanced_append (balanced_quiet hp.no_put (by decide))
      (balanced_quiet (quiet_singleton rfl) (by decide)), fun _ => rfl⟩
  | baseline p res rN rb e hp hs he =>
    exact ⟨0, balanced_quiet (prelude_quiet rN rb hp).2 (by decide), fun _ => rfl⟩
  | loop p res rN rb ns nodeCount ev lres hp hs hN hb hl =>
    obtain ⟨d, hd, hres⟩ := hl.balanced_loop
    have heq : p ++ nodesEvent clusterUrl rN :: healthEvent clusterUrl rb :: ev =
        (p ++ [nodesEvent clusterUrl rN, healthEvent clusterUrl rb]) ++ ev := by simp
    rw [heq]
    refine ⟨d, balanced_append (balanced_quiet (prelude_quiet rN rb hp).2 (by decide)) hd, ?_⟩
    intro hsucc
    cases lres with
    | none => exact hres rfl
    | some e' => exact absurd hsucc (hl.exit_ne_success_loop e' rfl)

theorem filterMap_quiet {ev : List Event} (h : ∀ e ∈ ev, e.putOf = none) :
    ev.filterMap Event.putOf = [] :=
  List.filterMap_eq_nil_iff.mpr h

/-- The allocation calls among the successful steps of a node. -/
theorem NodeSteps.puts_steps {nodeCount : JSVal} {node : Node} {k : Nat} {ev : List Event}
    (h : NodeSteps nodeCount node k ev) :
    ev.filterMap Event.putOf = (nodePuts node).take (putsDone k) := by
  induction h with
  | start => rfl
  | green ev p res h hp hs ih =>
    rw [List.filterMap_append, ih, filterMap_quiet hp.no_put]
    rfl
  | disable ev r h ih =>
    rw [List.filterMap_append, ih]
    rfl
  | shutdown ev r h hr ih =>
    rw [List.filterMap_append, ih]
    rfl
  | started ev h ih =>
    rw [List.filterMap_append, ih]
    rfl
  | rejoined ev p res h hp hs ih =>
    rw [List.filterMap_append, ih, filterMap_quiet hp.no_put]
    rfl
  | enable ev r h ih =>
    rw [List.filterMap_append, ih]
    rfl
  | settled ev p res h hp hs ih =>
    rw [List.filterMap_append, ih, filterMap_quiet hp.no_put]
    rfl

theorem LoopRun.puts_loop {nodeCount : JSVal} {ns : List Node} {ev : List Event}
    {res : Option Exit} (h : LoopRun nodeCount ns ev res) :
    res = none → ev.filterMap Event.putOf = ns.flatMap nodePuts := by
  induction h with
  | nil => intro _; rfl
  | stop node rest ev e h => intro h; cases h
  | next node rest ev ext res h hrest ih =>
    intro hres
    cases h with
    | done ev hsteps =>
      rw [List.filterMap_append, hsteps.puts_steps, ih hres]
      rfl

/-! ## Claims on shutdown and on the allocation calls -/

/-- C3, the code at the failing input: the shutdown call of the first node is
answered with status 500 and no transport error; the run does not stop there,
the next event is the start command on that node's host, and the run goes on to
end with success after all 34 events of a three-node restart. -/
theorem shutdown_refused_run_goes_on :
    (main shutdownRefusedWorld).2[7]? =
        some (postEvent "http://10.0.0.1:9200" ⟨false, 500, Body.undefined⟩) ∧
      (main shutdownRefusedWorld).2[8]? = some (sshEvent (JSVal.str "hostA") 10 0) ∧
      (main shutdownRefusedWorld).2.length = 34 ∧
      (main shutdownRefusedWorld).1 = Exit.success := by
  decide

/-- C7: in every run, successful or aborted: every shutdown call comes right
after a disable-allocation call to the same node; every enable-allocation call
comes right after a `waitForState` poll of the same node on `number_of_nodes`
whose last health fetch matched the expected value; at every point of the run
(every initial part `p` of its events) the disable calls issued exceed the
enable calls issued by 0 or 1; and when the run ends with success, the
allocation calls are, node by node in discovery order, one disable and one
enable per node, and the two counts are equal. -/
theorem allocation_paired (w : World) :
    (∀ pre e post, (main w).2 = pre ++ e :: post → e.IsShutdown → DisabledBefore pre e) ∧
    (∀ pre e post, (main w).2 = pre ++ e :: post → e.isEnable = true →
      RejoinedBefore pre e) ∧
    (∀ p, p <+: (main w).2 →
      p.countP Event.isEnable ≤ p.countP Event.isDisable ∧
      p.countP Event.isDisable ≤ p.countP Event.isEnable + 1) ∧
    ((main w).1 = Exit.success →
      ∃ pre rN post ns, (main w).2 = pre ++ nodesEvent clusterUrl rN :: post ∧
        rN.error = false ∧ rN.statusCode = 200 ∧ nodesLoop rN.nodes [] = some ns ∧
        (main w).2.filterMap Event.putOf = ns.flatMap nodePuts ∧
        (main w).2.countP Event.isDisable = (main w).2.countP Event.isEnable) := by
  have hm := main_mainRun w
  obtain ⟨d, ⟨hb1, hb2⟩, hd⟩ := hm.balanced_run
  refine ⟨hm.guarded_run.1, hm.guarded_run.2, ?_, ?_⟩
  · intro p hp
    have := hb1 p hp
    omega
  · intro hs
    obtain ⟨p, res, rN, rb, ns, nodeCount, loopEv, hev, hp, _, hN, _, hl⟩ := hm.success_inv hs
    refine ⟨p, rN, healthEvent clusterUrl rb :: loopEv, ns, hev, hN.1, hN.2.1, hN.2.2, ?_, ?_⟩
    · rw [hev]
      have h1 : (nodesEvent clusterUrl rN).putOf = none := rfl
      have h2 : (healthEvent clusterUrl rb).putOf = none := rfl
      rw [List.filterMap_append, filterMap_quiet hp.no_put, List.filterMap_cons, h1,
        List.filterMap_cons, h2, hl.puts_loop rfl]
      rfl
    · have := hd hs
      omega

/-- C7, witness: the run of the three-node cluster in which every request
succeeds ends with success, so its allocation calls are one disable and one
enable per discovered node. -/
theorem allocation_paired_witness :
    (main happyWorld).1 = Exit.success ∧
    ∃ pre rN post ns, (main happyWorld).2 = pre ++ nodesEvent clusterUrl rN :: post ∧
      rN.error = false ∧ rN.statusCode = 200 ∧ nodesLoop rN.nodes [] = some ns ∧
      (main happyWorld).2.filterMap Event.putOf = ns.flatMap nodePuts ∧
      (main happyWorld).2.countP Event.isDisable = (main happyWorld).2.countP Event.isEnable :=
  ⟨by decide, (allocation_paired happyWorld).2.2.2 (by decide)⟩

/-! ## The sequence of steps of a successful run -/

theorem stepOps_append (A B : List Event) : stepOps (A ++ B) = stepOps A ++ stepOps B := by
  simp [stepOps]

theorem WaitRun.stepOps_wait {nodeURL : String} {n : Nat} {key : String} {value : JSVal}
    {p : List Event} {res : Option (Callback Body)} (h : WaitRun nodeURL n key value p res) :
    stepOps p = [Op.waitForState nodeURL n key value] := by
  obtain ⟨ext, rfl, hrun⟩ := h
  have hext : ext.filter (fun e => !e.isAttempt) = [] := by
    rw [List.filter_eq_nil_iff]
    intro e he
    rcases hrun.events_poll e he with ⟨r, rfl⟩ | ⟨ms, rfl⟩ <;> simp [healthEvent, timeoutEvent,
      Event.isAttempt]
  have h0 : (waitEvent nodeURL n key value).isAttempt = false := rfl
  rw [EsRestart.stepOps, List.filter_cons]
  simp only [h0, Bool.not_false, if_true, hext]
  rfl

/-- The steps among the first `k` successful steps of a node. -/
theorem NodeSteps.stepOps_steps {nodeCount : JSVal} {node : Node} {k : Nat} {ev : List Event}
    (h : NodeSteps nodeCount node k ev) :
    stepOps ev = (nodeOps nodeCount node).take k := by
  induction h with
  | start => rfl
  | green ev p res h hp hs ih =>
    rw [stepOps_append, ih, hp.stepOps_wait]
    rfl
  | disable ev r h ih =>
    rw [stepOps_append, ih]
    rfl
  | shutdown ev r h hr ih =>
    rw [stepOps_append, ih]
    rfl
  | started ev h ih =>
    rw [stepOps_append, ih]
    rfl
  | rejoined ev p res h hp hs ih =>
    rw [stepOps_append, ih, hp.stepOps_wait]
    rfl
  | enable ev r h ih =>
    rw [stepOps_append, ih]
    rfl
  | settled ev p res h hp hs ih =>
    rw [stepOps_append, ih, hp.stepOps_wait]
    rfl

/-- The events of a fully restarted node end with the matching fetch of its
last poll. -/
theorem NodeSteps.seven {nodeCount : JSVal} {node : Node} {ev : List Event}
    (h : NodeSteps nodeCount node 7 ev) :
    ∃ pre r, ev = pre ++ [healthEvent node.http r] ∧
      r.Matches "status" (JSVal.str "green") := by
  cases h with
  | settled ev6 p res h6 hp hs =>
    obtain ⟨ext, r, h1, h2, _⟩ := hp.succeeded_shape hs
    exact ⟨ev6 ++ waitEvent node.http 60 "status" (JSVal.str "green") :: ext, r,
      by rw [h1]; simp, h2⟩

/-- A node loop that runs to its end is one full restart per node, in order. -/
theorem LoopRun.segments {nodeCount : JSVal} {ns : List Node} {ev : List Event}
    {res : Option Exit} (h : LoopRun nodeCount ns ev res) :
    res = none →
      ∃ segs : List (List Event), ev = segs.flatten ∧
        List.Forall₂ (fun (n : Node) (seg : List Event) =>
          stepOps seg = nodeOps nodeCount n ∧
          ∃ pre r, seg = pre ++ [healthEvent n.http r] ∧
            r.Matches "status" (JSVal.str "green")) ns segs ∧
        stepOps ev = ns.flatMap (nodeOps nodeCount) := by
  induction h with
  | nil => intro _; exact ⟨[], rfl, List.Forall₂.nil, rfl⟩
  | stop node rest ev e h => intro h; cases h
  | next node rest ev ext res h hrest ih =>
    intro hres
    obtain ⟨segs, hsegs, hall, hops⟩ := ih hres
    cases h with
    | done ev hsteps =>
      refine ⟨ev :: segs, by rw [List.flatten_cons, hsegs],
        List.Forall₂.cons ⟨hsteps.stepOps_steps, hsteps.seven⟩ hall, ?_⟩
      rw [stepOps_append, hsteps.stepOps_steps, hops]
      rfl

/-! ## The baseline of the rejoin polls -/

theorem WaitRun.rejoinPoll_wait {nodeURL : String} {n : Nat} {key : String} {value : JSVal}
    {p : List Event} {res : Option (Callback Body)} (h : WaitRun nodeURL n key value p res) :
    ∀ e ∈ p, ∀ v, e.RejoinPoll v → key = "number_of_nodes" ∧ v = value := by
  intro e he v hv
  obtain ⟨url, m, hop⟩ := hv
  rcases h.events_wait e he with rfl | ⟨r, rfl⟩ | ⟨ms, rfl⟩
  · simp only [waitEvent, Op.waitForState.injEq] at hop
    exact ⟨hop.2.2.1, hop.2.2.2.symm⟩
  · simp [healthEvent] at hop
  · simp [timeoutEvent] at hop

theorem status_poll_no_rejoin {nodeURL : String} {n : Nat} {value : JSVal}
    {p : List Event} {res : Option (Callback Body)} (h : WaitRun nodeURL n "status" value p res) :
    ∀ e ∈ p, ∀ v, ¬ e.RejoinPoll v := by
  intro e he v hv
  have := (h.rejoinPoll_wait e he v hv).1
  exact absurd this (by decide)

theorem not_rejoinPoll_of_putOf {e : Event} {uri mode : String}
    (h : e.op = Op.put uri mode) (v : JSVal) : ¬ e.RejoinPoll v := by
  rintro ⟨url, n, hop⟩
  rw [h] at hop
  cases hop

/-- Every rejoin poll among the steps of a node expects `nodeCount`. -/
theorem NodeSteps.rejoinPoll_steps {nodeCount : JSVal} {node : Node} {k : Nat} {ev : List Event}
    (h : NodeSteps nodeCount node k ev) :
    ∀ e ∈ ev, ∀ v, e.RejoinPoll v → v = nodeCount := by
  induction h with
  | start => intro e he; cases he
  | green ev p res h hp hs ih =>
    intro e he v hv
    rcases List.mem_append.mp he with h1 | h1
    · exact ih e h1 v hv
    · exact absurd hv (status_poll_no_rejoin hp e h1 v)
  | disable ev r h ih =>
    intro e he v hv
    rcases List.mem_append.mp he with h1 | h1
    · exact ih e h1 v hv
    · simp only [List.mem_singleton] at h1
      subst h1
      obtain ⟨url, n, hop⟩ := hv
      simp [putEvent] at hop
  | shutdown ev r h hr ih =>
    intro e he v hv
    rcases List.mem_append.mp he with h1 | h1
    · exact ih e h1 v hv
    · simp only [List.mem_singleton] at h1
      subst h1
      obtain ⟨url, n, hop⟩ := hv
      simp [postEvent] at hop
  | started ev h ih =>
    intro e he v hv
    rcases List.mem_append.mp he with h1 | h1
    · exact ih e h1 v hv
    · simp only [List.mem_singleton] at h1
      subst h1
      obtain ⟨url, n, hop⟩ := hv
      simp [sshEvent] at hop
  | rejoined ev p res h hp hs ih =>
    intro e he v hv
    rcases List.mem_append.mp he with h1 | h1
    · exact ih e h1 v hv
    · exact (hp.rejoinPoll_wait e h1 v hv).2
  | enable ev r h ih =>
    intro e he v hv
    rcases List.mem_append.mp he with h1 | h1
    · exact ih e h1 v hv
    · simp only [List.mem_singleton] at h1
      subst h1
      obtain ⟨url, n, hop⟩ := hv
      simp [putEvent] at hop
  | settled ev p res h hp hs ih =>
    intro e he v hv
    rcases List.mem_append.mp he with h1 | h1
    · exact ih e h1 v hv
    · exact absurd hv (status_poll_no_rejoin hp e h1 v)

theorem NodeStop.rejoinPoll_stop {nodeCount : JSVal} {node : Node} {k : Nat} {last : List Event}
    {x : Exit} (h : NodeStop nodeCount node k last x) :
    ∀ e ∈ last, ∀ v, e.RejoinPoll v → v = nodeCount := by
  cases h with
  | green p res hp hs =>
    intro e he v hv
    exact absurd hv (status_poll_no_rejoin hp e he v)
  | disable r x he =>
    intro e he v hv
    simp only [List.mem_singleton] at he
    subst he
    obtain ⟨url, n, hop⟩ := hv
    simp [putEvent] at hop
  | shutdown r hr =>
    intro e he v hv
    simp only [List.mem_singleton] at he
    subst he
    obtain ⟨url, n, hop⟩ := hv
    simp [postEvent] at hop
  | start exitCode hc =>
    intro e he v hv
    simp only [List.mem_singleton] at he
    subst he
    obtain ⟨url, n, hop⟩ := hv
    simp [sshEvent] at hop
  | rejoin p res hp hs =>
    intro e he v hv
    exact (hp.rejoinPoll_wait e he v hv).2
  | enable r x he =>
    intro e he v hv
    simp only [List.mem_singleton] at he
    subst he
    obtain ⟨url, n, hop⟩ := hv
    simp [putEvent] at hop
  | lastPoll p res hp hs =>
    intro e he v hv
    exact absurd hv (status_poll_no_rejoin hp e he v)

theorem LoopRun.rejoinPoll_loop {nodeCount : JSVal} {ns : List Node} {ev : List Event}
    {res : Option Exit} (h : LoopRun nodeCount ns ev res) :
    ∀ e ∈ ev, ∀ v, e.RejoinPoll v → v = nodeCount := by
  induction h with
  | nil => intro e he; cases he
  | stop node rest ev x h =>
    cases h with
    | stop k pre last x hsteps hstop =>
      intro e he v hv
      rcases List.mem_append.mp he with h1 | h1
      · exact hsteps.rejoinPoll_steps e h1 v hv
      · exact hstop.rejoinPoll_stop e h1 v hv
  | next node rest ev ext res h hrest ih =>
    cases h with
    | done ev hsteps =>
      intro e he v hv
      rcases List.mem_append.mp he with h1 | h1
      · exact hsteps.rejoinPoll_steps e h1 v hv
      · exact ih e h1 v hv

theorem prelude_no_rejoin {p : List Event} {res : Option (Callback Body)} (rN : NodesReply)
    (rb : HttpReply) (hp : WaitRun clusterUrl 3 "status" (JSVal.str "green") p res) :
    ∀ e ∈ p ++ [nodesEvent clusterUrl rN, healthEvent clusterUrl rb], ∀ v,
      ¬ e.RejoinPoll v := by
  intro e he v hv
  rcases List.mem_append.mp he with h | h
  · exact status_poll_no_rejoin hp e h v hv
  · simp only [List.mem_cons, List.mem_singleton, List.not_mem_nil, or_false] at h
    obtain ⟨url, n, hop⟩ := hv
    rcases h with rfl | rfl
    · simp [nodesEvent] at hop
    · simp [healthEvent] at hop

/-! ## Claims on the orchestrator -/

/-- C2: when the run ends with success, its events are the green-cluster check
`p`, the discovery call that returned the nodes `ns`, the baseline fetch that
gave `nodeCount`, and then one segment of events per discovered node, in
discovery order.  The steps of each segment are exactly the seven steps of its
node (poll green with 10 attempts, disable, shutdown, start after 10 s, poll
`number_of_nodes` against the baseline with 10 attempts, enable, poll green with
60 attempts), and each segment ends with the matching fetch of its last poll, so
that the next node starts only after it. -/
theorem success_sequence (w : World) (h : (main w).1 = Exit.success) :
    ∃ p rN rb ns nodeCount, ∃ segs : List (List Event),
      (main w).2 =
        p ++ nodesEvent clusterUrl rN :: healthEvent clusterUrl rb :: segs.flatten ∧
      stepOps p = [Op.waitForState clusterUrl 3 "status" (JSVal.str "green")] ∧
      (rN.error = false ∧ rN.statusCode = 200 ∧ nodesLoop rN.nodes [] = some ns) ∧
      (rb.error = false ∧ rb.statusCode = 200 ∧
        rb.body.getProp "number_of_nodes" = some nodeCount) ∧
      segs.length = ns.length ∧
      List.Forall₂ (fun (n : Node) (seg : List Event) =>
        stepOps seg = nodeOps nodeCount n ∧
        ∃ pre r, seg = pre ++ [healthEvent n.http r] ∧
          r.Matches "status" (JSVal.str "green")) ns segs ∧
      stepOps segs.flatten = ns.flatMap (nodeOps nodeCount) := by
  obtain ⟨p, res, rN, rb, ns, nodeCount, loopEv, hev, hp, _, hN, hb, hl⟩ :=
    (main_mainRun w).success_inv h
  obtain ⟨segs, hsegs, hall, hops⟩ := hl.segments rfl
  refine ⟨p, rN, rb, ns, nodeCount, segs, ?_, hp.stepOps_wait, hN, hb, hall.length_eq.symm, hall, ?_⟩
  · rw [hev, hsegs]
  · rw [← hsegs, hops]

/-- C2, witness: the three-node cluster in which every request succeeds at once;
the run ends with success. -/
theorem success_sequence_witness :
    (main happyWorld).1 = Exit.success ∧
    ∃ p rN rb ns nodeCount, ∃ segs : List (List Event),
      (main happyWorld).2 =
        p ++ nodesEvent clusterUrl rN :: healthEvent clusterUrl rb :: segs.flatten ∧
      stepOps p = [Op.waitForState clusterUrl 3 "status" (JSVal.str "green")] ∧
      (rN.error = false ∧ rN.statusCode = 200 ∧ nodesLoop rN.nodes [] = some ns) ∧
      (rb.error = false ∧ rb.statusCode = 200 ∧
        rb.body.getProp "number_of_nodes" = some nodeCount) ∧
      segs.length = ns.length ∧
      List.Forall₂ (fun (n : Node) (seg : List Event) =>
        stepOps seg = nodeOps nodeCount n ∧
        ∃ pre r, seg = pre ++ [healthEvent n.http r] ∧
          r.Matches "status" (JSVal.str "green")) ns segs ∧
      stepOps segs.flatten = ns.flatMap (nodeOps nodeCount) :=
  ⟨by decide, success_sequence happyWorld (by decide)⟩

/-- C10: in every run, either the run fails before the node loop and no poll on
`number_of_nodes` is ever entered, or the events start with the successful
green-cluster check on the cluster url, the discovery call and one health fetch
on the cluster url whose snapshot gives `nodeCount`, and every poll on
`number_of_nodes` of the run comes after that fetch and expects that same
`nodeCount`, whatever later snapshots report. -/
theorem baseline_fixed (w : World) :
    ((main w).1 ≠ Exit.success ∧ ∀ e ∈ (main w).2, ∀ v, ¬ e.RejoinPoll v) ∨
    ∃ ext r0 rN rb nodeCount rest,
      (main w).2 =
        (waitEvent clusterUrl 3 "status" (JSVal.str "green") :: ext ++
          [healthEvent clusterUrl r0]) ++
        nodesEvent clusterUrl rN :: healthEvent clusterUrl rb :: rest ∧
      r0.Matches "status" (JSVal.str "green") ∧
      (∀ x ∈ ext, (∃ r, x = healthEvent clusterUrl r) ∨ ∃ ms, x = timeoutEvent ms) ∧
      (rb.error = false ∧ rb.statusCode = 200 ∧
        rb.body.getProp "number_of_nodes" = some nodeCount) ∧
      (∀ e ∈ (main w).2, ∀ v, e.RejoinPoll v → v = nodeCount ∧ e ∈ rest) := by
  have hm := main_mainRun w
  generalize (main w).2 = T at hm
  generalize (main w).1 = x at hm
  cases hm with
  | precheck p res hp hs =>
    exact Or.inl ⟨exitOfStep_ne_success _, status_poll_no_rejoin hp⟩
  | discovery p res rN x hp hs hx =>
    refine Or.inl ⟨hx, ?_⟩
    intro e he v
    exact prelude_no_rejoin rN ⟨false, 0, Body.undefined⟩ hp e (by
      rcases List.mem_append.mp he with h | h
      · exact List.mem_append_left _ h
      · exact List.mem_append_right _ (by simp at h; simp [h])) v
  | baseline p res rN rb x hp hs hx => exact Or.inl ⟨hx, prelude_no_rejoin rN rb hp⟩
  | loop p res rN rb ns nodeCount ev lres hp hs hN hb hl =>
    obtain ⟨ext, r0, h1, h2, h3⟩ := hp.succeeded_shape hs
    refine Or.inr ⟨ext, r0, rN, rb, nodeCount, ev, by rw [h1], h2, h3, hb, ?_⟩
    intro e he v hv
    have heq : p ++ nodesEvent clusterUrl rN :: healthEvent clusterUrl rb :: ev =
        (p ++ [nodesEvent clusterUrl rN, healthEvent clusterUrl rb]) ++ ev := by simp
    rw [heq] at he
    rcases List.mem_append.mp he with h | h
    · exact absurd hv (prelude_no_rejoin rN rb hp e h v)
    · exact ⟨hl.rejoinPoll_loop e h v hv, h⟩

/-- C10, witness: in the three-node cluster where every request succeeds the
second case holds, since the run enters a poll on `number_of_nodes`. -/
theorem baseline_fixed_witness :
    ∃ ext r0 rN rb nodeCount rest,
      (main happyWorld).2 =
        (waitEvent clusterUrl 3 "status" (JSVal.str "green") :: ext ++
          [healthEvent clusterUrl r0]) ++
        nodesEvent clusterUrl rN :: healthEvent clusterUrl rb :: rest ∧
      r0.Matches "status" (JSVal.str "green") ∧
      (∀ x ∈ ext, (∃ r, x = healthEvent clusterUrl r) ∨ ∃ ms, x = timeoutEvent ms) ∧
      (rb.error = false ∧ rb.statusCode = 200 ∧
        rb.body.getProp "number_of_nodes" = some nodeCount) ∧
      (∀ e ∈ (main happyWorld).2, ∀ v, e.RejoinPoll v → v = nodeCount ∧ e ∈ rest) :=
  (baseline_fixed happyWorld).resolve_left (fun h =>
    h.2 (waitEvent "http://10.0.0.1:9200" 10 "number_of_nodes" (JSVal.num 3)) (by decide)
      (JSVal.num 3) ⟨_, _, rfl⟩)


end EsRestart
